import Mathlib

/-!
# Verification of the autonomous-orchestrator / sandbox core

Shallow embedding of the repository's core (`sources/orchestrator.py`,
`sources/sandbox.py`) and proofs of the frozen claims about it.

Strings are modelled as Lean `String` / `List Char`.  The subset of Python's
`re` module used by the source (literal characters, `\b`, `\w`, `\s`, `.`,
character classes, `*`, `+` on classes, and one literal alternation group) is
modelled by a small backtracking matcher, `reSearch`, below.  Wall-clock
times never influence any modelled control flow; the only execution times the
modelled (pre-execution) code paths ever produce are the literal `0.0`, so
`execution_time` is modelled as a natural number.
-/

namespace Dzeck

/-- Python's `\w` for the ASCII inputs relevant here: `[a-zA-Z0-9_]`. -/
def isWordChar (c : Char) : Bool :=
  c.isAlpha || c.isDigit || c = '_'

/-- Python's `\s` (and `str.strip()`'s whitespace) for ASCII inputs. -/
def isSpaceChar (c : Char) : Bool :=
  c = ' ' || c = '\t' || c = '\n' || c = '\r' || c = '\x0b' || c = '\x0c'

/-- One token of the restricted regex language used by the source's
pattern tables. -/
inductive RTok where
  | lit : Char → RTok
  | cls : (Char → Bool) → RTok
  | starCls : (Char → Bool) → RTok
  | wordB : RTok
  | altLits : List (List Char) → RTok

/-- Is the char before the current position a word char (`none` = string start)? -/
def prevIsWord : Option Char → Bool
  | none => false
  | some c => isWordChar c

/-- Is the char at the current position a word char (`[]` = string end)? -/
def nextIsWord : List Char → Bool
  | [] => false
  | c :: _ => isWordChar c

/-- Python `\b`: a word/non-word transition, string edges being non-word. -/
def atBoundary (prev : Option Char) (s : List Char) : Bool :=
  prevIsWord prev != nextIsWord s

/-- Boolean prefix test on char lists. -/
def isPrefixL : List Char → List Char → Bool
  | [], _ => true
  | _ :: _, [] => false
  | a :: as, b :: bs => (a == b) && isPrefixL as bs

/-- The char just before the position reached after consuming `w`
(falling back to `prev` when `w` is empty). -/
def lastOption (w : List Char) (prev : Option Char) : Option Char :=
  match w.getLast? with
  | some c => some c
  | none => prev

/-- Does the token list match a prefix of `s`?  `prev` is the character just
before `s` in the full subject (for `\b`).  `*` is handled with full
backtracking, so this is match-existence, exactly what `re.search`'s
truthiness gives the source code.  The extra fuel argument makes the
recursion structural (hence kernel-computable); `2 * s.length + sizeOf ts`
strictly decreases at every recursive call, so any larger fuel computes the
fuel-free backtracking matcher (`matchToksF_stable` below). -/
def matchToksF : Nat → List RTok → Option Char → List Char → Bool
  | 0, _, _, _ => false
  | Nat.succ fuel, ts0, prev, s0 =>
      match ts0, s0 with
      | [], _ => true
      | RTok.lit _ :: _, [] => false
      | RTok.lit c :: ts, x :: s => (x == c) && matchToksF fuel ts (some x) s
      | RTok.cls _ :: _, [] => false
      | RTok.cls f :: ts, x :: s => f x && matchToksF fuel ts (some x) s
      | RTok.wordB :: ts, s => atBoundary prev s && matchToksF fuel ts prev s
      | RTok.starCls f :: ts, s =>
          matchToksF fuel ts prev s ||
            (match s with
             | [] => false
             | x :: s' => f x && matchToksF fuel (RTok.starCls f :: ts) (some x) s')
      | RTok.altLits [] :: _, _ => false
      | RTok.altLits (w :: ws) :: ts, s =>
          (isPrefixL w s && matchToksF fuel ts (lastOption w prev) (s.drop w.length)) ||
            matchToksF fuel (RTok.altLits ws :: ts) prev s

/-- Structural size of one token (alternations count their branches). -/
def tokSize : RTok → Nat
  | RTok.altLits ws => 2 + ws.length
  | _ => 1

/-- Structural size of a token list. -/
def toksSize : List RTok → Nat
  | [] => 0
  | t :: ts => tokSize t + toksSize ts

/-- The fuel that always suffices for `matchToksF`. -/
def mtMeasure (ts : List RTok) (s : List Char) : Nat :=
  2 * s.length + toksSize ts

/-- The backtracking matcher, at its canonical (always sufficient) fuel. -/
def matchToks (ts : List RTok) (prev : Option Char) (s : List Char) : Bool :=
  matchToksF (mtMeasure ts s + 1) ts prev s

/-- `re.search` over a char list: try to match at every start position. -/
def searchFrom (ts : List RTok) : Option Char → List Char → Bool
  | prev, [] => matchToks ts prev []
  | prev, c :: s' => matchToks ts prev (c :: s') || searchFrom ts (some c) s'

/-- `re.search(pattern, s) is not None` for char lists. -/
def reSearchL (ts : List RTok) (s : List Char) : Bool :=
  searchFrom ts none s

/-- `re.search(pattern, s) is not None` for strings. -/
def reSearch (ts : List RTok) (s : String) : Bool :=
  reSearchL ts s.data

/-- A sequence of literal tokens, one per character of `s`. -/
def lits (s : String) : List RTok :=
  s.data.map RTok.lit

/-- `\w` -/
def wtok : RTok := RTok.cls isWordChar
/-- `\w*` -/
def wstar : RTok := RTok.starCls isWordChar
/-- `\s*` -/
def sstar : RTok := RTok.starCls isSpaceChar
/-- `\s` (used to build `\s+` as `\s\s*`) -/
def stok : RTok := RTok.cls isSpaceChar
/-- `.` (any char but newline, Python `re` without DOTALL) -/
def dotstar : RTok := RTok.starCls (fun c => c != '\n')
/-- `\b` -/
def bnd : RTok := RTok.wordB
/-- `["']` -/
def quoteCls : RTok := RTok.cls (fun c => c = '"' || c = '\'')

/-- Python's `needle in haystack` substring test. -/
def isSubstrL : List Char → List Char → Bool
  | pat, [] => isPrefixL pat []
  | pat, c :: s' => isPrefixL pat (c :: s') || isSubstrL pat s'

/-- Python's `needle in haystack` on strings. -/
def isSubstr (pat s : String) : Bool :=
  isSubstrL pat.data s.data

/-- Python `str.lower()` (ASCII). -/
def toLowerStr (s : String) : String :=
  String.mk (s.data.map Char.toLower)

/-- `List.dropWhile isSpaceChar`, i.e. the left half of `str.strip()`. -/
def trimLeft (l : List Char) : List Char :=
  l.dropWhile isSpaceChar

/-- The right half of `str.strip()`. -/
def trimRight (l : List Char) : List Char :=
  (l.reverse.dropWhile isSpaceChar).reverse

/-- Python `str.strip()` on a char list. -/
def pyStrip (l : List Char) : List Char :=
  trimRight (trimLeft l)

/-- Python `str.strip()` on a string. -/
def pyStripStr (s : String) : String :=
  String.mk (pyStrip s.data)

/-! ## sources/sandbox.py : pattern tables

Each entry transliterates one regex string of the source; `wordPat s` is
`\bs\b`, `callPat s` is `\bs\s*\(`, and `spMany` is `\s+`. -/

/-- `\bX\b` -/
def wordPat (s : String) : List RTok :=
  [bnd] ++ lits s ++ [bnd]

/-- `\bX\s*\(` -/
def callPat (s : String) : List RTok :=
  [bnd] ++ lits s ++ [sstar, RTok.lit '(']

/-- `\s+` -/
def spMany : List RTok := [stok, sstar]

/-- `r'\bos\.system\b'` -/
def reOsSystem : List RTok := [bnd] ++ lits "os.system" ++ [bnd]
/-- `r'\bos\.popen\b'` -/
def reOsPopen : List RTok := [bnd] ++ lits "os.popen" ++ [bnd]
/-- `r'\bos\.exec\w*\b'` -/
def reOsExec : List RTok := [bnd] ++ lits "os.exec" ++ [wstar, bnd]
/-- `r'\bos\.spawn\w*\b'` -/
def reOsSpawn : List RTok := [bnd] ++ lits "os.spawn" ++ [wstar, bnd]
/-- `r'\bsubprocess\.\w+'` -/
def reSubprocess : List RTok := [bnd] ++ lits "subprocess." ++ [wtok, wstar]

/-- `DANGEROUS_PATTERNS` (python denylist), in source order. -/
def DANGEROUS_PATTERNS_RE : List (List RTok) :=
  [ reOsSystem,
    reOsPopen,
    reOsExec,
    reOsSpawn,
    [bnd] ++ lits "os.kill" ++ [bnd],
    [bnd] ++ lits "os.remove" ++ [bnd],
    [bnd] ++ lits "os.unlink" ++ [bnd],
    [bnd] ++ lits "os.rmdir" ++ [bnd],
    reSubprocess,
    [bnd] ++ lits "shutil.rmtree" ++ [bnd],
    [bnd] ++ lits "shutil.move" ++ [bnd],
    wordPat "__import__",
    wordPat "importlib",
    callPat "eval",
    callPat "exec",
    callPat "compile",
    [bnd] ++ lits "open" ++ [sstar, RTok.lit '(', dotstar] ++ lits "/etc/",
    [bnd] ++ lits "socket." ++ [wtok, wstar],
    wordPat "ctypes",
    [bnd] ++ lits "signal.SIG",
    [bnd] ++ lits "sys.exit" ++ [bnd],
    [bnd] ++ lits "os._exit" ++ [bnd],
    wordPat "Pickle",
    [bnd] ++ lits "pickle.loads" ++ [bnd],
    wordPat "marshall" ]

/-- `SERVER_START_PATTERNS`, in source order. -/
def SERVER_START_PATTERNS_RE : List (List RTok) :=
  [ [RTok.lit '.'] ++ lits "run" ++ [sstar, RTok.lit '('],
    lits "app.run" ++ [sstar, RTok.lit '('],
    lits "uvicorn.run" ++ [sstar, RTok.lit '('],
    lits "serve" ++ [sstar, RTok.lit '(', sstar] ++ lits "app",
    lits "httpd.serve_forever" ++ [sstar, RTok.lit '('],
    lits "socketserver.",
    lits "http.server",
    lits "waitress.serve" ++ [sstar, RTok.lit '('],
    lits "gunicorn",
    lits "flask" ++ spMany ++ lits "run" ]

/-- `DANGEROUS_BASH_PATTERNS`, in source order.  The braces of the
fork-bomb pattern are written with `\x7b`/`\x7d` escapes. -/
def DANGEROUS_BASH_PATTERNS_RE : List (List RTok) :=
  [ [bnd] ++ lits "rm" ++ spMany ++ lits "-rf" ++ [bnd],
    [bnd] ++ lits "rm" ++ spMany ++ lits "-fr" ++ [bnd],
    [bnd] ++ lits "rm" ++ spMany ++ lits "--no-preserve-root" ++ [bnd],
    [bnd] ++ lits "dd" ++ spMany,
    wordPat "mkfs",
    wordPat "fdisk",
    wordPat "parted",
    [bnd] ++ lits "chmod" ++ spMany ++ lits "777" ++ [bnd],
    [bnd] ++ lits "chmod" ++ spMany ++ lits "-R" ++ [bnd],
    [bnd] ++ lits "chown" ++ spMany ++ lits "-R" ++ [bnd],
    [bnd] ++ lits ":()" ++ [sstar] ++ lits "\x7b" ++ [sstar] ++ lits ":|:" ++
      [sstar] ++ lits "&" ++ [sstar] ++ lits "\x7d" ++ [sstar] ++ lits ";",
    wordPat "shutdown",
    wordPat "reboot",
    wordPat "halt",
    [bnd] ++ lits "init" ++ spMany ++ lits "0" ++ [bnd],
    [bnd] ++ lits "systemctl" ++ spMany ++
      [RTok.altLits ["stop".data, "disable".data, "mask".data], bnd],
    [bnd] ++ lits "mv" ++ spMany ++ lits "/" ++ [bnd],
    [bnd, RTok.lit '>', sstar] ++ lits "/dev/sd",
    [bnd] ++ lits "curl" ++ [bnd, dotstar, RTok.lit '|', sstar] ++ lits "bash",
    [bnd] ++ lits "wget" ++ [bnd, dotstar, RTok.lit '|', sstar] ++ lits "bash",
    [bnd] ++ lits "nc" ++ spMany ++ lits "-l",
    wordPat "netcat",
    wordPat "nmap",
    wordPat "iptables",
    wordPat "passwd",
    wordPat "useradd",
    wordPat "userdel",
    wordPat "visudo",
    wordPat "sudo",
    [bnd] ++ lits "su" ++ spMany,
    wordPat "chroot" ]

/-- `DANGEROUS_JS_PATTERNS`, in source order. -/
def DANGEROUS_JS_PATTERNS_RE : List (List RTok) :=
  [ wordPat "child_process",
    callPat "exec",
    wordPat "execSync",
    wordPat "spawn",
    wordPat "spawnSync",
    callPat "eval",
    callPat "Function",
    [bnd] ++ lits "fs.rmSync" ++ [bnd],
    [bnd] ++ lits "fs.unlinkSync" ++ [bnd],
    [bnd] ++ lits "process.exit" ++ [bnd],
    [bnd] ++ lits "require" ++ [sstar, RTok.lit '(', sstar, quoteCls] ++
      lits "child_process" ++ [quoteCls, sstar, RTok.lit ')'] ]

/-- Network patterns applied when `block_network` is set (python only). -/
def NETWORK_PATTERNS_RE : List (List RTok) :=
  [wordPat "socket", wordPat "urllib", wordPat "requests",
   wordPat "httplib", wordPat "http"]

/-- `r'from\s+flask\s+import'` -/
def indFromFlask : List RTok := lits "from" ++ spMany ++ lits "flask" ++ spMany ++ lits "import"
/-- `r'from\s+fastapi\s+import'` -/
def indFromFastapi : List RTok := lits "from" ++ spMany ++ lits "fastapi" ++ spMany ++ lits "import"
/-- `r'import\s+flask'` -/
def indImportFlask : List RTok := lits "import" ++ spMany ++ lits "flask"
/-- `r'import\s+fastapi'` -/
def indImportFastapi : List RTok := lits "import" ++ spMany ++ lits "fastapi"
/-- `r'app\s*=\s*Flask\s*\('` -/
def indAppFlask : List RTok :=
  lits "app" ++ [sstar, RTok.lit '=', sstar] ++ lits "Flask" ++ [sstar, RTok.lit '(']
/-- `r'app\s*=\s*FastAPI\s*\('` -/
def indAppFastAPI : List RTok :=
  lits "app" ++ [sstar, RTok.lit '=', sstar] ++ lits "FastAPI" ++ [sstar, RTok.lit '(']
/-- `r'app\.run\s*\('` -/
def indAppRun : List RTok := lits "app.run" ++ [sstar, RTok.lit '(']
/-- `r'uvicorn\.run\s*\('` -/
def indUvicornRun : List RTok := lits "uvicorn.run" ++ [sstar, RTok.lit '(']
/-- `r'@app\.route\s*\('` -/
def indRoute : List RTok := lits "@app.route" ++ [sstar, RTok.lit '(']
/-- `r'@app\.(get|post|put|delete|patch)\s*\('` -/
def indMethodDec : List RTok :=
  lits "@app." ++
    [RTok.altLits ["get".data, "post".data, "put".data, "delete".data, "patch".data],
     sstar, RTok.lit '(']

/-- The server-code indicators of `SafeExecutor._is_server_code`, in order. -/
def SERVER_INDICATORS_RE : List (List RTok) :=
  [ indFromFlask, indFromFastapi, indImportFlask, indImportFastapi,
    indAppFlask, indAppFastAPI, indAppRun, indUvicornRun, indRoute, indMethodDec ]

/-- `RESTRICTED_PATHS` of the source. -/
def RESTRICTED_PATHS : List String :=
  ["/etc/passwd", "/etc/shadow", "/etc/sudoers", "/root", "/proc", "/sys",
   "/home/runner/.config"]

/-- The `r'\.\./\.\./\.\./'` traversal pattern (a pure literal). -/
def TRAVERSAL_RE : List RTok := lits "../../../"

/-- `MAX_OUTPUT_LENGTH`. -/
def MAX_OUTPUT_LENGTH : Nat := 50000

/-! ## sources/sandbox.py : data model and validation -/

/-- The configuration fields of `SafeExecutor` that influence validation.
`work_dir`, `timeout` and `max_memory_mb` only affect the execution phase,
which the decision model stops short of. -/
structure SandboxConfig where
  block_network : Bool := false
  isolation_mode : String := "workspace"
deriving Repr, DecidableEq

/-- The default `SafeExecutor` configuration: `block_network=False`,
`isolation_mode="workspace"`. -/
def cfgDefault : SandboxConfig := {}

/-- `SandboxResult`.  `execution_time` is a natural number because every
modelled (pre-execution) path produces the literal `0.0`. -/
structure SandboxResult where
  success : Bool
  output : String
  errors : String
  execution_time : Nat
  language : String := ""
  timed_out : Bool := false
  blocked : Bool := false
  blocked_reason : String := ""
  truncated : Bool := false
deriving Repr, DecidableEq

/-- `SafeExecutor._check_path_safety` as a boolean (the refusal reason
string is not tracked). -/
def checkPathSafety (cfg : SandboxConfig) (code : String) : Bool :=
  !(RESTRICTED_PATHS.any (fun p => isSubstr p code)) &&
    !((cfg.isolation_mode == "workspace") && reSearch TRAVERSAL_RE code)

/-- The `patterns` entry of `LANGUAGE_CONFIG` (`none` = language absent). -/
def langPatterns : String → Option (List (List RTok))
  | "python" => some DANGEROUS_PATTERNS_RE
  | "javascript" => some DANGEROUS_JS_PATTERNS_RE
  | "nodejs" => some DANGEROUS_JS_PATTERNS_RE
  | "bash" => some DANGEROUS_BASH_PATTERNS_RE
  | "go" => some []
  | _ => none

/-- `SafeExecutor.validate_code` as a boolean: path safety, then the
per-language denylist, then the optional network scan. -/
def validateCode (cfg : SandboxConfig) (code : String) (language : String) : Bool :=
  if !checkPathSafety cfg code then false
  else
    match langPatterns language with
    | none => true
    | some pats =>
        if pats.any (fun p => reSearch p code) then false
        else if cfg.block_network && language == "python" then
          !(NETWORK_PATTERNS_RE.any (fun p => reSearch p code))
        else true

/-- The number of server indicators matching the code. -/
def serverIndicatorCount (code : List Char) : Nat :=
  (SERVER_INDICATORS_RE.filter (fun p => reSearchL p code)).length

/-- `SafeExecutor._is_server_code`. -/
def isServerCode (code : String) : Bool :=
  !(code.data == []) && decide (2 ≤ serverIndicatorCount code.data)

/-! ## sources/sandbox.py : the server-start strip pass -/

/-- `code.split('\n')` on char lists. -/
def splitLinesL : List Char → List (List Char)
  | [] => [[]]
  | c :: rest =>
      if c = '\n' then [] :: splitLinesL rest
      else
        match splitLinesL rest with
        | [] => [[c]]
        | l :: ls => (c :: l) :: ls

/-- `'\n'.join(lines)` on char lists. -/
def joinLinesL : List (List Char) → List Char
  | [] => []
  | [l] => l
  | l :: ls => l ++ '\n' :: joinLinesL ls

/-- Does a (stripped) line match one of `SERVER_START_PATTERNS`? -/
def isServerLine (st : List Char) : Bool :=
  SERVER_START_PATTERNS_RE.any (fun p => reSearchL p st)

/-- `stripped.startswith('if __name__') and '__main__' in stripped`. -/
def isMainLine (st : List Char) : Bool :=
  isPrefixL "if __name__".data st && isSubstrL "__main__".data st

/-- `line[0:1] in (' ', '\t')`. -/
def headIsSpaceTab : List Char → Bool
  | [] => false
  | c :: _ => c = ' ' || c = '\t'

/-- Comment line emitted for a removed server-start line. -/
def cServer (st : List Char) : List Char :=
  "# [sandbox] server start removed: ".data ++ st

/-- Comment line emitted for a removed `__main__` guard. -/
def cMain (st : List Char) : List Char :=
  "# [sandbox] main block removed: ".data ++ st

/-- Comment line emitted for a line inside a removed `__main__` block. -/
def cSkip (st : List Char) : List Char :=
  "# [sandbox] ".data ++ st

/-- The line-by-line body of `_strip_server_start`; the boolean is the
`skip_block` state. -/
def goStrip : Bool → List (List Char) → List (List Char)
  | _, [] => []
  | skip, l :: ls =>
      let st := pyStrip l
      if isServerLine st then cServer st :: goStrip skip ls
      else if isMainLine st then cMain st :: goStrip true ls
      else if skip && (st.isEmpty || headIsSpaceTab l) then cSkip st :: goStrip true ls
      else l :: goStrip false ls

/-- `SafeExecutor._strip_server_start`. -/
def stripServerStart (code : String) (language : String) : String :=
  if language == "python" then
    String.mk (joinLinesL (goStrip false (splitLinesL code.data)))
  else code

/-! ## sources/sandbox.py : execution decisions

The model follows the source up to (but not into) the point where a child
process would be spawned: `runCode`/`runShell` mean "the snippet reaches the
subprocess machinery", every `finished` result is returned without executing
anything. -/

/-- Outcome of the pre-execution pipeline. -/
inductive ExecDecision where
  | finished : SandboxResult → ExecDecision
  | runCode : String → String → ExecDecision
  | runShell : String → ExecDecision
deriving Repr, DecidableEq

/-- The synthetic result of the server-code branch of `_execute_code`. -/
def serverCodeResult (language : String) : SandboxResult :=
  { success := true,
    output := "[server code] File backend berhasil disimpan. Server tidak dijalankan di sandbox karena port sudah digunakan. File siap digunakan.",
    errors := "", execution_time := 0, language := language }

/-- A validation refusal (the matched-text interpolation of the reason
string is not modelled). -/
def blockedResult (language : String) : SandboxResult :=
  { success := false, output := "", errors := "Blocked dangerous pattern",
    execution_time := 0, language := language,
    blocked := true, blocked_reason := "Blocked dangerous pattern" }

/-- The `if not config` fallback inside `_execute_code`. -/
def unsupportedConfigResult (language : String) : SandboxResult :=
  { success := false, output := "",
    errors := "Unsupported language: " ++ language,
    execution_time := 0, language := language }

/-- `SafeExecutor._is_system_install`. -/
def isSystemInstall (command : String) : Bool :=
  let low := pyStripStr (toLowerStr command)
  ["apt install", "apt-get install", "apt update", "apt-get update",
   "brew install", "conda install"].any (fun p => isSubstr p low)

/-- `SafeExecutor._is_allowed_install`. -/
def isAllowedInstall (command : String) : Bool :=
  let low := pyStripStr (toLowerStr command)
  ["pip install", "pip3 install", "npm install", "npm i ", "yarn add",
   "yarn install", "npx ", "npm init", "npm create"].any (fun p => isSubstr p low)

/-- The result returned for a refused system package install. -/
def systemInstallResult (command : String) : SandboxResult :=
  { success := true,
    output := "[blocked] System package install not allowed: " ++ pyStripStr command ++
      "\nGunakan pip/npm/yarn untuk install packages.",
    errors := "", execution_time := 0, language := "bash" }

/-- `str.replace(old, new)` for a nonempty `old`, fuelled so the recursion
is structural; the fuel `s.length` always suffices since each call strictly
shortens the subject. -/
def replaceAllF (old new : List Char) : Nat → List Char → List Char
  | 0, s => s
  | Nat.succ fuel, s =>
      match s with
      | [] => []
      | c :: s' =>
          if !old.isEmpty && isPrefixL old (c :: s') then
            new ++ replaceAllF old new fuel (s'.drop (old.length - 1))
          else c :: replaceAllF old new fuel s'

/-- `str.replace(old, new)` for a nonempty `old`. -/
def replaceAllL (old new s : List Char) : List Char :=
  replaceAllF old new s.length s

/-- `command.replace(' --break-system-packages', '')`. -/
def removeBreakFlag (command : String) : String :=
  String.mk (replaceAllL " --break-system-packages".data [] command.data)

/-- `SafeExecutor._execute_shell` up to the raw-execution call. -/
def execShellDecision (cfg : SandboxConfig) (command : String) : ExecDecision :=
  if isSystemInstall command then .finished (systemInstallResult command)
  else if isAllowedInstall command then .runShell (removeBreakFlag command)
  else if !validateCode cfg command "bash" then .finished (blockedResult "bash")
  else .runShell command

/-- `SafeExecutor._execute_code` up to the subprocess call. -/
def execCodeDecision (cfg : SandboxConfig) (code language : String) : ExecDecision :=
  if language == "python" && isServerCode code then
    .finished (serverCodeResult language)
  else
    let code' := stripServerStart code language
    if !validateCode cfg code' language then .finished (blockedResult language)
    else
      match langPatterns language with
      | none => .finished (unsupportedConfigResult language)
      | some _ =>
          if language == "bash" then execShellDecision cfg code'
          else .runCode language code'

/-- `Sandbox.run`: `rejected` is the unsupported-language early return
(which appends nothing to the execution history); `dispatched tag d` is a
call to one of the `run_*` wrappers, which appends one `(tag, result)`
entry to the history once `d` resolves. -/
inductive RunOutcome where
  | rejected : SandboxResult → RunOutcome
  | dispatched : String → ExecDecision → RunOutcome
deriving Repr, DecidableEq

/-- The unsupported-language result of `Sandbox.run`. -/
def unsupportedRunResult (language : String) : SandboxResult :=
  { success := false, output := "",
    errors := "Unsupported language: " ++ language ++
      ". Supported: python, javascript, nodejs, bash, go",
    execution_time := 0, language := language }

/-- `Sandbox.run`. -/
def sandboxRun (cfg : SandboxConfig) (code language : String) : RunOutcome :=
  let l := pyStripStr (toLowerStr language)
  if l == "python" then .dispatched "python" (execCodeDecision cfg code "python")
  else if l == "bash" then .dispatched "bash" (execShellDecision cfg code)
  else if l == "javascript" || l == "js" || l == "nodejs" || l == "node" then
    .dispatched "javascript" (execCodeDecision cfg code "javascript")
  else if l == "go" || l == "golang" then
    .dispatched "go" (execCodeDecision cfg code "go")
  else .rejected (unsupportedRunResult l)

/-- The execution-history language tag appended by one `Sandbox.run` call
(`none` = nothing appended). -/
def historyEntry : RunOutcome → Option String
  | .rejected _ => none
  | .dispatched l _ => some l

/-! ## sources/sandbox.py : output truncation -/

/-- `SafeExecutor._truncate_output`. -/
def truncateOutput (text : String) : String × Bool :=
  if MAX_OUTPUT_LENGTH < text.length then
    (String.mk (text.data.take MAX_OUTPUT_LENGTH) ++
       "\n\n... [output truncated, " ++ toString (text.length - MAX_OUTPUT_LENGTH) ++
       " chars omitted]",
     true)
  else (text, false)

/-- The normal-exit result assembly shared by `_run_code_subprocess` and
`_execute_shell_raw` (lines 402-414 and 506-518): the decoded stdout goes
through `_truncate_output`, the decoded stderr is passed through verbatim,
and the `truncated` flag comes from stdout alone. -/
def processOutputs (stdout stderr : String) : String × String × Bool :=
  let p := truncateOutput stdout
  (p.1, stderr, p.2)

/-! ## sources/orchestrator.py : plan data model -/

/-- `TaskStep`.  Statuses are the literal strings of the source. -/
structure TaskStep where
  id : Nat
  description : String
  agent_type : String
  status : String := "pending"
  result : String := ""
  error : String := ""
  attempts : Nat := 0
  max_attempts : Nat := 3
  dependencies : List String := []
deriving Repr, DecidableEq

/-- The dependency scan inside `ExecutionPlan.get_next_step`: every
dependency id either finds no step (lenient) or finds a first step whose
status is `completed`. -/
def depsMet (steps : List TaskStep) (step : TaskStep) : Bool :=
  step.dependencies.all fun depId =>
    match steps.find? (fun s => toString s.id == depId) with
    | none => true
    | some depStep => depStep.status == "completed"

/-- The eligibility test of `get_next_step` on one step. -/
def runnableIn (steps : List TaskStep) (step : TaskStep) : Bool :=
  step.status == "pending" && depsMet steps step

/-- `ExecutionPlan.get_next_step`. -/
def getNextStep (steps : List TaskStep) : Option TaskStep :=
  steps.find? (runnableIn steps)

/-- `get_next_step` returning the position of the selected step as well
(the Python loop mutates the selected object in place; the position lets
the model update the same list cell). -/
def selectAux (full : List TaskStep) : List TaskStep → Nat → Option (Nat × TaskStep)
  | [], _ => none
  | s :: rest, k =>
      if runnableIn full s then some (k, s) else selectAux full rest (k + 1)

/-- Positional form of `get_next_step`. -/
def selectStep (steps : List TaskStep) : Option (Nat × TaskStep) :=
  selectAux steps steps 0

/-- The update applied to a step by one failure recording
(`mark_step_failed`, and the failure branch of `reflect`). -/
def failUpdate (s : TaskStep) (err : String) : TaskStep :=
  let a := s.attempts + 1
  { s with attempts := a,
           status := if s.max_attempts ≤ a then "failed" else "pending",
           error := err }

/-- `ExecutionPlan.mark_step_failed` (updates the first step with the id,
like the Python loop's early return). -/
def markStepFailed : List TaskStep → Nat → String → List TaskStep
  | [], _, _ => []
  | s :: rest, stepId, err =>
      if s.id = stepId then failUpdate s err :: rest
      else s :: markStepFailed rest stepId err

/-- `ExecutionPlan.mark_step_done`. -/
def markStepDone : List TaskStep → Nat → String → List TaskStep
  | [], _, _ => []
  | s :: rest, stepId, res =>
      if s.id = stepId then
        { s with status := "completed", result := res } :: rest
      else s :: markStepDone rest stepId res

/-- `ExecutionPlan.is_complete`. -/
def isComplete (steps : List TaskStep) : Bool :=
  steps.all fun s => s.status == "completed" || s.status == "failed"

/-- `AutonomousOrchestrator.reflect`, restricted to its effect on the step
(the reflection-log line and observer notifications carry no plan state). -/
def reflectStep (s : TaskStep) (result : String) (success : Bool) : TaskStep :=
  if success then { s with status := "completed", result := result }
  else failUpdate s result

/-! ## sources/orchestrator.py : plan revision -/

/-- The `re.search(r"no module named ['\"]?(\w+)", error_lower)` capture:
first position where the literal, an optional quote and at least one word
char match; the captured word-char run. -/
def extractModuleName : List Char → Option (List Char)
  | [] => none
  | c :: rest =>
      if isPrefixL "no module named ".data (c :: rest) then
        let after := (c :: rest).drop "no module named ".data.length
        let after2 :=
          match after with
          | q :: r => if q = '\'' || q = '"' then r else after
          | [] => after
        let w := after2.takeWhile isWordChar
        if w.isEmpty then extractModuleName rest else some w
      else extractModuleName rest

/-- The error-driven branch of `revise_plan`: the recovery capability and
the base recovery description. -/
def recoveryAgentAndDesc (failed : TaskStep) : String × String :=
  let errorLower := toLowerStr failed.error
  if isSubstr "no module named" errorLower || isSubstr "import" errorLower then
    let moduleName :=
      match extractModuleName errorLower.data with
      | some w => String.mk w
      | none => "yang dibutuhkan"
    (toLowerStr failed.agent_type,
     "[RECOVERY - INSTALL DEPENDENCY] Install dependency '" ++ moduleName ++
       "' terlebih dahulu menggunakan pip install, lalu ulangi tugas: " ++
       failed.description)
  else if isSubstr "permission" errorLower || isSubstr "access denied" errorLower then
    ("file",
     "[RECOVERY - FIX PERMISSIONS] Perbaiki permission/akses file yang bermasalah, lalu ulangi tugas: " ++
       failed.description)
  else if isSubstr "syntax" errorLower || isSubstr "syntaxerror" errorLower then
    ("coder",
     "[RECOVERY - FIX SYNTAX] Perbaiki syntax error dalam kode. Baca file yang bermasalah, identifikasi error syntax, dan perbaiki. Tugas asli: " ++
       failed.description)
  else if isSubstr "timeout" errorLower || isSubstr "connection" errorLower then
    ("web",
     "[RECOVERY - RETRY CONNECTION] Coba lagi dengan query pencarian berbeda atau URL alternatif. Tugas asli: " ++
       failed.description)
  else
    let lowerAgent := toLowerStr failed.agent_type
    let alt :=
      if lowerAgent == "coder" then "file"
      else if lowerAgent == "file" then "coder"
      else if lowerAgent == "web" then "casual"
      else if lowerAgent == "casual" then "coder"
      else failed.agent_type
    (alt, "[RECOVERY] Coba lagi dengan pendekatan berbeda: " ++ failed.description)

/-- The suffix `revise_plan` always appends to the recovery description:
the stored error (or `'Unknown error'`) truncated to 500 characters, plus
the instruction to use a different approach. -/
def recoveryErrSuffix (failed : TaskStep) : String :=
  let errText := if failed.error == "" then "Unknown error" else failed.error
  "\n\nERROR SEBELUMNYA:\n" ++ String.mk (errText.data.take 500) ++
    "\nINSTRUKSI: Gunakan pendekatan BERBEDA. Jangan ulangi cara yang sama. Kamu dilarang meminta klarifikasi, langsung eksekusi."

/-- The `TaskStep` appended by `revise_plan`. -/
def recoveryStep (steps : List TaskStep) (failed : TaskStep) : TaskStep :=
  let p := recoveryAgentAndDesc failed
  { id := steps.length + 1,
    description := p.2 ++ recoveryErrSuffix failed,
    agent_type := p.1,
    max_attempts := 2,
    dependencies := failed.dependencies }

/-- `AutonomousOrchestrator.revise_plan` on the plan's step list. -/
def revisePlan (steps : List TaskStep) (failed : TaskStep) : List TaskStep :=
  steps ++ [recoveryStep steps failed]

/-! ## sources/orchestrator.py : the autonomous loop

External capability handlers are modelled by an oracle mapping the
execution index to the `(answer, success)` pair that
`execute_step` would return; prompts, observer notifications,
`work_results` and the persistent memory writes carry no loop state and
are omitted. -/

/-- One task of the input task list, after the `need` string/list
normalisation of `create_plan_from_tasks`. -/
structure AgentTask where
  name : String
  task : Option String := none
  agent : Option String := none
  need : List String := []
deriving Repr, DecidableEq

/-- `AutonomousOrchestrator.create_plan_from_tasks` (the step list). -/
def createPlanSteps (tasks : List AgentTask) : List TaskStep :=
  tasks.enum.map fun p =>
    { id := p.1 + 1,
      description := p.2.task.getD p.2.name,
      agent_type := p.2.agent.getD "coder",
      dependencies := p.2.need }

/-- The error written on the dependency-deadlock path. -/
def deadlockMsg : String :=
  "Dependency deadlock: langkah yang dibutuhkan gagal"

/-- The deadlock branch of `run_loop`: every still-pending step is forced
to `failed` with the deadlock error. -/
def deadlockFail (steps : List TaskStep) : List TaskStep :=
  steps.map fun s =>
    if s.status == "pending" then { s with status := "failed", error := deadlockMsg }
    else s

/-- The state threaded through the `while` loop of `run_loop`.  `log` is a
ghost trace of the ids of the executed steps (one entry per loop iteration
that reaches `execute_step`); `iter` is the source's `iteration` counter. -/
structure LoopState where
  steps : List TaskStep
  cf : Nat
  iter : Nat
  log : List Nat
deriving Repr, DecidableEq

/-- One-iteration-at-a-time model of the `while` loop of `run_loop`.  The
fuel is `max_iterations - iteration`, which the source decrements by
exactly one per executed iteration, so fuel `0` is the
`iteration < max_iterations` guard failing. -/
def loopGo (oracle : Nat → String × Bool) : Nat → LoopState → LoopState
  | 0, st => st
  | Nat.succ fuel, st =>
      if isComplete st.steps then st
      else
        match selectStep st.steps with
        | none =>
            if st.steps.any (fun s => s.status == "pending") then
              { st with steps := deadlockFail st.steps }
            else st
        | some (i, s) =>
            let o := oracle st.iter
            let s' := reflectStep s o.1 o.2
            let steps1 := st.steps.set i s'
            let cf' := if o.2 then 0 else st.cf + 1
            let steps2 :=
              if !o.2 && s'.status == "failed" && cf' < 3 then revisePlan steps1 s'
              else steps1
            loopGo oracle fuel
              { steps := steps2, cf := cf', iter := st.iter + 1, log := st.log ++ [s.id] }

/-- `AutonomousOrchestrator.run_loop` from plan creation to loop exit,
returning the final loop state (the summary text is a pure rendering of
it). -/
def runLoop (oracle : Nat → String × Bool) (tasks : List AgentTask) : LoopState :=
  let steps0 := createPlanSteps tasks
  loopGo oracle (steps0.length * 4) { steps := steps0, cf := 0, iter := 0, log := [] }

/-- The `completed` count of the final summary. -/
def completedCount (steps : List TaskStep) : Nat :=
  steps.countP fun s => s.status == "completed"

/-! ## sources/orchestrator.py : loop-termination bookkeeping

Ghost quantities for the `run_loop` termination argument; they are not
part of the source, only of its verification. -/

/-- Executions a step can still absorb: a pending step is re-selected
until it either completes or its attempts reach `max_attempts`. -/
def stepBudget (s : TaskStep) : Nat :=
  if s.status == "pending" then s.max_attempts - s.attempts else 0

/-- Total executions the plan can still absorb. -/
def planBudget (steps : List TaskStep) : Nat :=
  (steps.map stepBudget).sum

/-- The fields of a step that `get_next_step` inspects: its id and status
(for the dependency scans over the plan) and its own status and
dependency list. -/
def stepKey (s : TaskStep) : Nat × String × List String :=
  (s.id, s.status, s.dependencies)

/-- The invariant `run_loop` maintains on the plan and the
`consecutive_failures` counter: ids are unique, every step keeps the
constructor's `max_attempts = 3`, a pending step has attempts to spare,
and a pending step that has already been attempted is exactly the step
`get_next_step` selects, with at least that many consecutive failures
recorded. -/
def LoopInv (steps : List TaskStep) (cf : Nat) : Prop :=
  (steps.map TaskStep.id).Nodup ∧
  (∀ s ∈ steps, s.max_attempts = 3) ∧
  (∀ s ∈ steps, s.status = "pending" → s.attempts < s.max_attempts) ∧
  (∀ s ∈ steps, s.status = "pending" → 0 < s.attempts →
    getNextStep steps = some s ∧ s.attempts ≤ cf)

/-- A loop state stuck in a dependency deadlock: step 1 terminally
failed, step 2 still pending on it. -/
def stuckState : LoopState :=
  { steps := [{ id := 1, description := "tugas satu", agent_type := "coder",
                status := "failed", error := "boom", attempts := 3 },
              { id := 2, description := "tugas dua", agent_type := "file",
                dependencies := ["1"] }],
    cf := 3, iter := 3, log := [1, 1, 1] }

/-! ## Claim-side predicates

These state the claims' hypotheses in the claims' own words, to be related
to the source-derived definitions above. -/

/-- C3's eligibility, as the spec words it: pending, and every dependency
id either matches no step id or only steps with status `completed`. -/
def SpecEligible (steps : List TaskStep) (s : TaskStep) : Prop :=
  s.status = "pending" ∧
    ∀ d ∈ s.dependencies, ∀ t ∈ steps, toString t.id = d → t.status = "completed"

/-- What must follow the literal text of an OS-process-spawn pattern:
`\b` for `os.system`/`os.popen`, nothing for `os.exec*`/`os.spawn*`
(`\w*\b` is satisfiable after any text), at least one word char for
`subprocess.`. -/
inductive SpawnShape where
  | bound
  | anyTail
  | wordTail
deriving Repr, DecidableEq

/-- Word boundary to the left of an occurrence: at the text start, or
after a non-word character. -/
def startOKP (a : List Char) : Prop :=
  a = [] ∨ ∃ c, a.getLast? = some c ∧ isWordChar c = false

/-- The tail condition of a `SpawnShape` on the text after the occurrence. -/
def endOKP : SpawnShape → List Char → Prop
  | .bound, b => b = [] ∨ ∃ c, b.head? = some c ∧ isWordChar c = false
  | .anyTail, _ => True
  | .wordTail, b => ∃ c, b.head? = some c ∧ isWordChar c = true

/-- The text contains the literal `lit` as a free-standing occurrence
(word boundary on the left, `sh`'s condition on the right). -/
def LitHit (lit : List Char) (sh : SpawnShape) (s : List Char) : Prop :=
  ∃ a b, s = a ++ lit ++ b ∧ startOKP a ∧ endOKP sh b

/-- C1's hypothesis: the snippet contains a direct OS-process-spawn call,
i.e. text matching one of the denylist patterns `os.system`, `os.popen`,
`os.exec*`, `os.spawn*` or `subprocess.*`. -/
def ContainsSpawn (s : List Char) : Prop :=
  LitHit "os.system".data .bound s ∨ LitHit "os.popen".data .bound s ∨
    LitHit "os.exec".data .anyTail s ∨ LitHit "os.spawn".data .anyTail s ∨
    LitHit "subprocess.".data .wordTail s

/-! ## Helper lemmas -/

theorem tokSize_pos (t : RTok) : 1 ≤ tokSize t := by
  cases t <;> simp [tokSize]
  omega

theorem toksSize_tail_lt (t : RTok) (ts : List RTok) : toksSize ts < toksSize (t :: ts) := by
  have := tokSize_pos t
  simp only [toksSize]
  omega

theorem toksSize_alt_tail_lt (w : List Char) (ws : List (List Char)) (ts : List RTok) :
    toksSize (RTok.altLits ws :: ts) < toksSize (RTok.altLits (w :: ws) :: ts) := by
  simp only [toksSize, tokSize, List.length_cons]
  omega

theorem matchToksF_stable :
    ∀ (f : Nat) (ts : List RTok) (prev : Option Char) (s : List Char),
      mtMeasure ts s < f → matchToksF f ts prev s = matchToks ts prev s := by
  intro f
  induction f using Nat.strong_induction_on with
  | _ f ih =>
    intro ts prev s hf
    obtain ⟨f0, rfl⟩ : ∃ f0, f = f0 + 1 := ⟨f - 1, by omega⟩
    rw [matchToks]
    cases ts with
    | nil => rfl
    | cons t ts' =>
      have htail := toksSize_tail_lt t ts'
      cases t with
      | lit c =>
          cases s with
          | nil => rfl
          | cons x s' =>
              have hm : mtMeasure ts' s' < mtMeasure (RTok.lit c :: ts') (x :: s') := by
                simp only [mtMeasure, List.length_cons]
                omega
              simp only [matchToksF]
              rw [ih f0 (by omega) ts' (some x) s' (by omega),
                ih (mtMeasure (RTok.lit c :: ts') (x :: s')) hf ts' (some x) s' hm]
      | cls g =>
          cases s with
          | nil => rfl
          | cons x s' =>
              have hm : mtMeasure ts' s' < mtMeasure (RTok.cls g :: ts') (x :: s') := by
                simp only [mtMeasure, List.length_cons]
                omega
              simp only [matchToksF]
              rw [ih f0 (by omega) ts' (some x) s' (by omega),
                ih (mtMeasure (RTok.cls g :: ts') (x :: s')) hf ts' (some x) s' hm]
      | wordB =>
          have hm : mtMeasure ts' s < mtMeasure (RTok.wordB :: ts') s := by
            simp only [mtMeasure]
            omega
          simp only [matchToksF]
          rw [ih f0 (by omega) ts' prev s (by omega),
            ih (mtMeasure (RTok.wordB :: ts') s) hf ts' prev s hm]
      | starCls g =>
          have hm : mtMeasure ts' s < mtMeasure (RTok.starCls g :: ts') s := by
            simp only [mtMeasure]
            omega
          cases s with
          | nil =>
              simp only [matchToksF]
              rw [ih f0 (by omega) ts' prev [] (by omega),
                ih (mtMeasure (RTok.starCls g :: ts') []) hf ts' prev [] hm]
          | cons x s' =>
              have hm2 : mtMeasure (RTok.starCls g :: ts') s' <
                  mtMeasure (RTok.starCls g :: ts') (x :: s') := by
                simp only [mtMeasure, List.length_cons]
                omega
              simp only [matchToksF]
              rw [ih f0 (by omega) ts' prev (x :: s') (by omega),
                ih (mtMeasure (RTok.starCls g :: ts') (x :: s')) hf ts' prev (x :: s')
                  hm,
                ih f0 (by omega) (RTok.starCls g :: ts') (some x) s' (by omega),
                ih (mtMeasure (RTok.starCls g :: ts') (x :: s')) hf
                  (RTok.starCls g :: ts') (some x) s' hm2]
      | altLits ws =>
          cases ws with
          | nil => rfl
          | cons w ws' =>
              have halt := toksSize_alt_tail_lt w ws' ts'
              have hdrop : (s.drop w.length).length ≤ s.length := by
                rw [List.length_drop]
                omega
              have hm : mtMeasure ts' (s.drop w.length) <
                  mtMeasure (RTok.altLits (w :: ws') :: ts') s := by
                simp only [mtMeasure, toksSize] at htail ⊢
                omega
              have hm2 : mtMeasure (RTok.altLits ws' :: ts') s <
                  mtMeasure (RTok.altLits (w :: ws') :: ts') s := by
                simp only [mtMeasure]
                omega
              simp only [matchToksF]
              rw [ih f0 (by omega) ts' (lastOption w prev) (s.drop w.length) (by omega),
                ih (mtMeasure (RTok.altLits (w :: ws') :: ts') s) hf ts'
                  (lastOption w prev) (s.drop w.length) hm,
                ih f0 (by omega) (RTok.altLits ws' :: ts') prev s (by omega),
                ih (mtMeasure (RTok.altLits (w :: ws') :: ts') s) hf
                  (RTok.altLits ws' :: ts') prev s hm2]

/-! Engine step lemmas: one unfolding of `matchToks`, with the recursive
occurrences re-expressed at their own canonical fuel via
`matchToksF_stable`. -/

theorem mt_nil (prev : Option Char) (s : List Char) : matchToks [] prev s = true := by
  rw [matchToks]
  simp only [matchToksF]

theorem mt_lit (c : Char) (ts : List RTok) (prev : Option Char) (x : Char) (s : List Char) :
    matchToks (RTok.lit c :: ts) prev (x :: s) = ((x == c) && matchToks ts (some x) s) := by
  rw [matchToks]
  simp only [matchToksF]
  rw [matchToksF_stable (mtMeasure (RTok.lit c :: ts) (x :: s)) ts (some x) s
    (by simp only [mtMeasure, toksSize, tokSize, List.length_cons]; omega)]

theorem mt_cls (f : Char → Bool) (ts : List RTok) (prev : Option Char) (x : Char)
    (s : List Char) :
    matchToks (RTok.cls f :: ts) prev (x :: s) = (f x && matchToks ts (some x) s) := by
  rw [matchToks]
  simp only [matchToksF]
  rw [matchToksF_stable (mtMeasure (RTok.cls f :: ts) (x :: s)) ts (some x) s
    (by simp only [mtMeasure, toksSize, tokSize, List.length_cons]; omega)]

theorem mt_wordB (ts : List RTok) (prev : Option Char) (s : List Char) :
    matchToks (RTok.wordB :: ts) prev s = (atBoundary prev s && matchToks ts prev s) := by
  rw [matchToks]
  simp only [matchToksF]
  rw [matchToksF_stable (mtMeasure (RTok.wordB :: ts) s) ts prev s
    (by simp only [mtMeasure, toksSize, tokSize]; omega)]

theorem mt_star_skip (f : Char → Bool) (ts : List RTok) (prev : Option Char) (s : List Char)
    (h : matchToks ts prev s = true) :
    matchToks (RTok.starCls f :: ts) prev s = true := by
  rw [matchToks]
  simp only [matchToksF]
  rw [matchToksF_stable (mtMeasure (RTok.starCls f :: ts) s) ts prev s
    (by simp only [mtMeasure, toksSize, tokSize]; omega), h]
  simp

theorem mt_star_cons (f : Char → Bool) (ts : List RTok) (prev : Option Char) (x : Char)
    (s' : List Char) (hx : f x = true)
    (h : matchToks (RTok.starCls f :: ts) (some x) s' = true) :
    matchToks (RTok.starCls f :: ts) prev (x :: s') = true := by
  rw [matchToks]
  simp only [matchToksF]
  rw [matchToksF_stable (mtMeasure (RTok.starCls f :: ts) (x :: s'))
    (RTok.starCls f :: ts) (some x) s'
    (by simp only [mtMeasure, toksSize, tokSize, List.length_cons]; omega), h, hx]
  simp

theorem lastOption_nil (prev : Option Char) : lastOption [] prev = prev := rfl

theorem lastOption_cons (c : Char) (w' : List Char) (prev : Option Char) :
    lastOption (c :: w') prev = lastOption w' (some c) := by
  cases w' with
  | nil => rfl
  | cons d w'' =>
      rw [lastOption, lastOption, List.getLast?_cons_cons]
      cases hgl : (d :: w'').getLast? with
      | none => simp at hgl
      | some y => rfl

theorem matchToks_lits (w : List Char) :
    ∀ (ts : List RTok) (prev : Option Char) (s : List Char),
      matchToks ts (lastOption w prev) s = true →
      matchToks (w.map RTok.lit ++ ts) prev (w ++ s) = true := by
  induction w with
  | nil => intro ts prev s h; simpa using h
  | cons c w' ih =>
      intro ts prev s h
      rw [List.map_cons, List.cons_append, List.cons_append, mt_lit]
      rw [ih ts (some c) s (by rw [← lastOption_cons]; exact h)]
      simp

theorem mt_wstar_bnd :
    ∀ (s : List Char) (c : Char), isWordChar c = true →
      matchToks [RTok.starCls isWordChar, RTok.wordB] (some c) s = true := by
  intro s
  induction s with
  | nil =>
      intro c hc
      apply mt_star_skip
      rw [mt_wordB]
      simp [atBoundary, prevIsWord, nextIsWord, hc, mt_nil]
  | cons x s' ih =>
      intro c hc
      cases hx : isWordChar x with
      | false =>
          apply mt_star_skip
          rw [mt_wordB]
          simp [atBoundary, prevIsWord, nextIsWord, hc, hx, mt_nil]
      | true => exact mt_star_cons _ _ _ _ _ hx (ih x hx)

theorem searchFrom_of_match (ts : List RTok) :
    ∀ (a : List Char) (prev : Option Char) (rest : List Char),
      matchToks ts (lastOption a prev) rest = true →
      searchFrom ts prev (a ++ rest) = true := by
  intro a
  induction a with
  | nil =>
      intro prev rest h
      rw [lastOption_nil] at h
      cases rest with
      | nil => simpa [searchFrom] using h
      | cons c s' => simp [searchFrom, h]
  | cons c a' ih =>
      intro prev rest h
      rw [List.cons_append, searchFrom]
      rw [ih (some c) rest (by rw [← lastOption_cons]; exact h)]
      simp

theorem prev_not_word_of_startOK (a : List Char) (h : startOKP a) :
    prevIsWord (lastOption a none) = false := by
  rcases h with rfl | ⟨c, hlast, hcw⟩
  · rfl
  · simp [lastOption, hlast, prevIsWord, hcw]

theorem boundary_start (a : List Char) (ha : startOKP a) (c0 : Char) (rest : List Char)
    (hc0 : isWordChar c0 = true) :
    atBoundary (lastOption a none) (c0 :: rest) = true := by
  rw [atBoundary, prev_not_word_of_startOK a ha]
  simp [nextIsWord, hc0]

theorem boundary_end (lc : Char) (hlc : isWordChar lc = true) (b : List Char)
    (hb : b = [] ∨ ∃ c, b.head? = some c ∧ isWordChar c = false) :
    atBoundary (some lc) b = true := by
  rcases hb with rfl | ⟨c, hc, hcw⟩
  · simp [atBoundary, prevIsWord, nextIsWord, hlc]
  · cases b with
    | nil => simp at hc
    | cons x b' =>
        simp only [List.head?_cons, Option.some.injEq] at hc
        subst hc
        simp [atBoundary, prevIsWord, nextIsWord, hlc, hcw]

theorem reSearchL_wordpat (lit : List Char) (s : List Char)
    (hhead : ∃ c rest, lit = c :: rest ∧ isWordChar c = true)
    (hlast : ∃ lc, lit.getLast? = some lc ∧ isWordChar lc = true)
    (h : LitHit lit SpawnShape.bound s) :
    reSearchL ([RTok.wordB] ++ lit.map RTok.lit ++ [RTok.wordB]) s = true := by
  obtain ⟨a, b, rfl, ha, hb⟩ := h
  obtain ⟨c0, rest0, hlit, hc0⟩ := hhead
  obtain ⟨lc, hlc, hlcw⟩ := hlast
  rw [reSearchL, List.append_assoc a lit b]
  apply searchFrom_of_match
  rw [List.append_assoc [RTok.wordB] (lit.map RTok.lit) [RTok.wordB],
    List.singleton_append, mt_wordB]
  have hbd : atBoundary (lastOption a none) (lit ++ b) = true := by
    rw [hlit, List.cons_append]
    exact boundary_start a ha c0 _ hc0
  rw [hbd, Bool.true_and]
  apply matchToks_lits
  have hlo : lastOption lit (lastOption a none) = some lc := by
    simp [lastOption, hlc]
  rw [hlo, mt_wordB, boundary_end lc hlcw b hb, mt_nil]
  simp

theorem reSearchL_anytail (lit : List Char) (s : List Char)
    (hhead : ∃ c rest, lit = c :: rest ∧ isWordChar c = true)
    (hlast : ∃ lc, lit.getLast? = some lc ∧ isWordChar lc = true)
    (h : LitHit lit SpawnShape.anyTail s) :
    reSearchL ([RTok.wordB] ++ lit.map RTok.lit ++ [RTok.starCls isWordChar, RTok.wordB])
      s = true := by
  obtain ⟨a, b, rfl, ha, _⟩ := h
  obtain ⟨c0, rest0, hlit, hc0⟩ := hhead
  obtain ⟨lc, hlc, hlcw⟩ := hlast
  rw [reSearchL, List.append_assoc a lit b]
  apply searchFrom_of_match
  rw [List.append_assoc [RTok.wordB] (lit.map RTok.lit)
    [RTok.starCls isWordChar, RTok.wordB], List.singleton_append, mt_wordB]
  have hbd : atBoundary (lastOption a none) (lit ++ b) = true := by
    rw [hlit, List.cons_append]
    exact boundary_start a ha c0 _ hc0
  rw [hbd, Bool.true_and]
  apply matchToks_lits
  have hlo : lastOption lit (lastOption a none) = some lc := by
    simp [lastOption, hlc]
  rw [hlo]
  exact mt_wstar_bnd b lc hlcw

theorem reSearchL_wordtail (lit : List Char) (s : List Char)
    (hhead : ∃ c rest, lit = c :: rest ∧ isWordChar c = true)
    (h : LitHit lit SpawnShape.wordTail s) :
    reSearchL ([RTok.wordB] ++ lit.map RTok.lit ++
      [RTok.cls isWordChar, RTok.starCls isWordChar]) s = true := by
  obtain ⟨a, b, rfl, ha, hb⟩ := h
  obtain ⟨c0, rest0, hlit, hc0⟩ := hhead
  rw [reSearchL, List.append_assoc a lit b]
  apply searchFrom_of_match
  rw [List.append_assoc [RTok.wordB] (lit.map RTok.lit)
    [RTok.cls isWordChar, RTok.starCls isWordChar], List.singleton_append, mt_wordB]
  have hbd : atBoundary (lastOption a none) (lit ++ b) = true := by
    rw [hlit, List.cons_append]
    exact boundary_start a ha c0 _ hc0
  rw [hbd, Bool.true_and]
  apply matchToks_lits
  obtain ⟨c, hc, hcw⟩ := hb
  cases b with
  | nil => simp at hc
  | cons x b' =>
      simp only [List.head?_cons, Option.some.injEq] at hc
      subst hc
      rw [mt_cls, hcw, Bool.true_and]
      apply mt_star_skip
      exact mt_nil _ _

/-! Character-class facts used by the strip-preservation argument. -/

theorem word_not_space (c : Char) (h : isWordChar c = true) : isSpaceChar c = false := by
  cases hsp : isSpaceChar c
  · rfl
  · exfalso
    rw [isSpaceChar] at hsp
    simp only [Bool.or_eq_true, decide_eq_true_eq] at hsp
    rcases hsp with ((((h1 | h1) | h1) | h1) | h1) | h1 <;>
      (subst h1; exact absurd h (by decide))

theorem word_ne_newline (c : Char) (h : isWordChar c = true) : c ≠ '\n' := by
  rintro rfl
  exact absurd h (by decide)

/-! splitLines / joinLines structure lemmas. -/

theorem splitLinesL_ne_nil (s : List Char) : splitLinesL s ≠ [] := by
  cases s with
  | nil => simp [splitLinesL]
  | cons c rest =>
      by_cases hc : c = '\n'
      · simp [splitLinesL, hc]
      · rw [splitLinesL, if_neg hc]
        cases splitLinesL rest <;> simp

theorem splitLinesL_cons_decomp (s : List Char) :
    ∃ l ls, splitLinesL s = l :: ls := by
  cases h : splitLinesL s with
  | nil => exact absurd h (splitLinesL_ne_nil s)
  | cons l ls => exact ⟨l, ls, rfl⟩

theorem splitLinesL_append_newline (x y : List Char) :
    splitLinesL (x ++ '\n' :: y) = splitLinesL x ++ splitLinesL y := by
  induction x with
  | nil => simp [splitLinesL]
  | cons c x' ih =>
      by_cases hc : c = '\n'
      · subst hc
        rw [List.cons_append, splitLinesL, if_pos rfl, ih, splitLinesL, if_pos rfl,
          List.cons_append]
      · obtain ⟨l, ls, hx⟩ := splitLinesL_cons_decomp x'
        rw [List.cons_append, splitLinesL, if_neg hc, ih, hx, List.cons_append,
          splitLinesL, if_neg hc, hx, List.cons_append]

theorem splitLinesL_append_nonl (x : List Char) (hx : ∀ c ∈ x, c ≠ '\n') (y : List Char) :
    ∃ l ls, splitLinesL y = l :: ls ∧ splitLinesL (x ++ y) = (x ++ l) :: ls := by
  induction x with
  | nil =>
      obtain ⟨l, ls, h⟩ := splitLinesL_cons_decomp y
      exact ⟨l, ls, h, by simpa using h⟩
  | cons c x' ih =>
      have hc : c ≠ '\n' := hx c (List.mem_cons_self c x')
      obtain ⟨l, ls, hy, hxy⟩ := ih fun d hd => hx d (List.mem_cons_of_mem c hd)
      refine ⟨l, ls, hy, ?_⟩
      rw [List.cons_append, splitLinesL, if_neg hc, hxy, List.cons_append]

theorem splitLinesL_head (b : List Char) :
    ∃ l ls, splitLinesL b = l :: ls ∧
      (l.head? = b.head? ∨ (b.head? = some '\n' ∧ l = [])) := by
  cases b with
  | nil => exact ⟨[], [], rfl, Or.inl rfl⟩
  | cons c b' =>
      by_cases hc : c = '\n'
      · subst hc
        exact ⟨[], splitLinesL b', by rw [splitLinesL, if_pos rfl], Or.inr ⟨rfl, rfl⟩⟩
      · obtain ⟨l, ls, h⟩ := splitLinesL_cons_decomp b'
        exact ⟨c :: l, ls, by rw [splitLinesL, if_neg hc, h], Or.inl (by simp)⟩

theorem mem_lastSplit {α : Type} [DecidableEq α] (c : α) :
    ∀ (l : List α), c ∈ l → ∃ l₁ l₂, l = l₁ ++ c :: l₂ ∧ c ∉ l₂ := by
  intro l
  induction l with
  | nil => simp
  | cons x xs ih =>
      intro h
      by_cases hc : c ∈ xs
      · obtain ⟨l₁, l₂, rfl, hn⟩ := ih hc
        exact ⟨x :: l₁, l₂, rfl, hn⟩
      · have hx : c = x := by
          rcases List.mem_cons.1 h with h' | h'
          · exact h'
          · exact absurd h' hc
        subst hx
        exact ⟨[], xs, rfl, hc⟩

/-! A free-standing occurrence survives the line split: it lies within one
line, whose edges are boundaries in both views since newline is a non-word
character. -/

theorem lithit_first_line (lit : List Char) (sh : SpawnShape)
    (hnl : ∀ c ∈ lit, c ≠ '\n') (a b : List Char)
    (hna : '\n' ∉ a) (ha : startOKP a) (hb : endOKP sh b) :
    ∃ l ∈ splitLinesL (a ++ lit ++ b), LitHit lit sh l := by
  have hx : ∀ c ∈ a ++ lit, c ≠ '\n' := by
    intro c hc
    rcases List.mem_append.1 hc with hc | hc
    · exact fun h' => hna (h' ▸ hc)
    · exact hnl c hc
  obtain ⟨l, ls, hyd, hsl⟩ := splitLinesL_append_nonl (a ++ lit) hx b
  obtain ⟨l2, ls2, hyd2, hhead⟩ := splitLinesL_head b
  rw [hyd] at hyd2
  obtain ⟨rfl, rfl⟩ : l = l2 ∧ ls = ls2 := by
    injection hyd2 with h1 h2
    exact ⟨h1, h2⟩
  refine ⟨(a ++ lit) ++ l, by rw [hsl]; exact List.mem_cons_self _ _,
    ⟨a, l, by rw [List.append_assoc], ha, ?_⟩⟩
  cases sh with
  | anyTail => trivial
  | bound =>
      rcases hhead with hhd | ⟨_, rfl⟩
      · rcases hb with rfl | ⟨c, hc, hcw⟩
        · left
          rw [← List.head?_eq_none_iff]
          rw [hhd]
          rfl
        · right
          exact ⟨c, by rw [hhd, hc], hcw⟩
      · left; rfl
  | wordTail =>
      obtain ⟨c, hc, hcw⟩ := hb
      rcases hhead with hhd | ⟨hnl2, rfl⟩
      · exact ⟨c, by rw [hhd, hc], hcw⟩
      · rw [hc] at hnl2
        have hcn : c = '\n' := by injection hnl2
        subst hcn
        exact absurd hcw (by decide)

theorem lithit_mem_splitLines (lit : List Char) (sh : SpawnShape)
    (hnl : ∀ c ∈ lit, c ≠ '\n') (s : List Char) (h : LitHit lit sh s) :
    ∃ l ∈ splitLinesL s, LitHit lit sh l := by
  obtain ⟨a, b, rfl, ha, hb⟩ := h
  by_cases hna : '\n' ∈ a
  · obtain ⟨a₁, a₂, rfl, hna₂⟩ := mem_lastSplit '\n' a hna
    have ha₂ : startOKP a₂ := by
      rcases ha with hnil | ⟨c, hc, hcw⟩
      · exact absurd hnil (by simp)
      · cases a₂ with
        | nil => exact Or.inl rfl
        | cons d a₂' =>
            right
            refine ⟨c, ?_, hcw⟩
            rw [← hc, List.getLast?_append_cons]
            rw [List.getLast?_cons_cons]
    obtain ⟨l, hlmem, hl⟩ := lithit_first_line lit sh hnl a₂ b hna₂ ha₂ hb
    refine ⟨l, ?_, hl⟩
    have hs : (a₁ ++ '\n' :: a₂) ++ lit ++ b = a₁ ++ '\n' :: (a₂ ++ lit ++ b) := by
      rw [List.append_assoc, List.append_assoc, List.cons_append, List.append_assoc]
    rw [hs, splitLinesL_append_newline]
    exact List.mem_append_right _ hlmem
  · exact lithit_first_line lit sh hnl a b hna ha hb

/-! The per-line transforms of `_strip_server_start` preserve a
free-standing occurrence: `str.strip()` only peels whitespace off the line
ends, and every inserted comment prefix ends in a space. -/

theorem trimLeft_decomp (a rest : List Char)
    (hr : ∃ c t, rest = c :: t ∧ isSpaceChar c = false) :
    ∃ a', trimLeft (a ++ rest) = a' ++ rest ∧
      (a' = [] ∨ (a'.getLast? = a.getLast? ∧ a' ≠ [])) := by
  obtain ⟨c, t, rfl, hc⟩ := hr
  rw [trimLeft, List.dropWhile_append]
  by_cases he : (a.dropWhile isSpaceChar).isEmpty
  · rw [if_pos he, List.dropWhile_cons_of_neg (by rw [hc]; exact Bool.false_ne_true)]
    exact ⟨[], rfl, Or.inl rfl⟩
  · rw [if_neg he]
    have hne : a.dropWhile isSpaceChar ≠ [] := by
      intro h0; rw [h0] at he; exact he rfl
    refine ⟨a.dropWhile isSpaceChar, rfl, Or.inr ⟨?_, hne⟩⟩
    obtain ⟨u, hu⟩ := List.dropWhile_suffix (l := a) isSpaceChar
    conv_rhs => rw [← hu]
    rw [List.getLast?_append_of_ne_nil u hne]

theorem trimRight_decomp (x b : List Char)
    (hx : ∃ lc, x.getLast? = some lc ∧ isSpaceChar lc = false) :
    ∃ b', trimRight (x ++ b) = x ++ b' ∧
      ((b' = [] ∧ ∀ c ∈ b, isSpaceChar c = true) ∨
        (b' ≠ [] ∧ b'.head? = b.head?)) := by
  obtain ⟨lc, hlc, hlcs⟩ := hx
  have hxrev : ∃ t, x.reverse = lc :: t := by
    have : x.reverse.head? = some lc := by rw [List.head?_reverse]; exact hlc
    exact ⟨x.reverse.tail, List.eq_cons_of_mem_head? this⟩
  obtain ⟨t, ht⟩ := hxrev
  rw [trimRight, List.reverse_append, List.dropWhile_append]
  by_cases he : (b.reverse.dropWhile isSpaceChar).isEmpty
  · rw [if_pos he, ht, List.dropWhile_cons_of_neg (by rw [hlcs]; exact Bool.false_ne_true),
      ← ht, List.reverse_reverse]
    refine ⟨[], by rw [List.append_nil], Or.inl ⟨rfl, ?_⟩⟩
    intro c hcmem
    have := (List.dropWhile_eq_nil_iff).1 (List.isEmpty_iff.1 he)
    exact this c (List.mem_reverse.2 hcmem)
  · rw [if_neg he, List.reverse_append, List.reverse_reverse]
    set b' := (b.reverse.dropWhile isSpaceChar).reverse with hb'
    have hb'ne : b' ≠ [] := by
      rw [hb']
      intro h0
      rw [List.reverse_eq_nil_iff] at h0
      rw [h0] at he
      exact he rfl
    refine ⟨b', rfl, Or.inr ⟨hb'ne, ?_⟩⟩
    have hpref : b' <+: b := by
      have hsuf : b.reverse.dropWhile isSpaceChar <:+ b.reverse :=
        List.dropWhile_suffix isSpaceChar
      have hrp : (b.reverse.dropWhile isSpaceChar).reverse <+: b.reverse.reverse ↔
          b.reverse.dropWhile isSpaceChar <:+ b.reverse := List.reverse_prefix
      have := hrp.2 hsuf
      rwa [List.reverse_reverse] at this
    obtain ⟨u, hu⟩ := hpref
    rw [← hu, List.head?_append_of_ne_nil b' hb'ne]

theorem pyStrip_lithit (lit : List Char) (sh : SpawnShape)
    (hheadns : ∃ c t, lit = c :: t ∧ isSpaceChar c = false)
    (hlastns : ∃ lc, lit.getLast? = some lc ∧ isSpaceChar lc = false)
    (l : List Char) (h : LitHit lit sh l) : LitHit lit sh (pyStrip l) := by
  obtain ⟨a, b, rfl, ha, hb⟩ := h
  obtain ⟨c0, t0, hlit0, hc0⟩ := hheadns
  have hrest : ∃ c t, lit ++ b = c :: t ∧ isSpaceChar c = false :=
    ⟨c0, t0 ++ b, by rw [hlit0, List.cons_append], hc0⟩
  obtain ⟨a', htl, ha'⟩ := trimLeft_decomp a (lit ++ b) hrest
  have heq1 : trimLeft (a ++ lit ++ b) = a' ++ lit ++ b := by
    rw [List.append_assoc a lit b, htl, ← List.append_assoc]
  obtain ⟨lc, hlc, hlcs⟩ := hlastns
  have hlitne : lit ≠ [] := by rw [hlit0]; simp
  have hxlast : ∃ lc', (a' ++ lit).getLast? = some lc' ∧ isSpaceChar lc' = false :=
    ⟨lc, by rw [List.getLast?_append_of_ne_nil a' hlitne]; exact hlc, hlcs⟩
  obtain ⟨b', htr, hb'⟩ := trimRight_decomp (a' ++ lit) b hxlast
  have heq2 : pyStrip (a ++ lit ++ b) = a' ++ lit ++ b' := by
    rw [pyStrip, heq1, List.append_assoc a' lit b, ← List.append_assoc a' lit b, htr,
      List.append_assoc, ← List.append_assoc]
  rw [heq2]
  refine ⟨a', b', rfl, ?_, ?_⟩
  · rcases ha' with rfl | ⟨hlast', hne'⟩
    · exact Or.inl rfl
    · rcases ha with rfl | ⟨c, hc, hcw⟩
      · exfalso
        cases a' with
        | nil => exact hne' rfl
        | cons d a'' => simp at hlast'
      · exact Or.inr ⟨c, by rw [hlast', hc], hcw⟩
  · rcases hb' with ⟨rfl, hall⟩ | ⟨hne', hhd⟩
    · cases sh with
      | bound => exact Or.inl rfl
      | anyTail => trivial
      | wordTail =>
          obtain ⟨c, hc, hcw⟩ := hb
          have hcmem : c ∈ b := by
            cases b with
            | nil => simp at hc
            | cons z b'' =>
                simp only [List.head?_cons, Option.some.injEq] at hc
                rw [← hc]
                exact List.mem_cons_self z b''
          have := hall c hcmem
          rw [word_not_space c hcw] at this
          exact absurd this Bool.false_ne_true
    · cases sh with
      | bound =>
          rcases hb with rfl | ⟨c, hc, hcw⟩
          · exfalso
            cases b' with
            | nil => exact hne' rfl
            | cons z b'' => simp at hhd
          · exact Or.inr ⟨c, by rw [hhd, hc], hcw⟩
      | anyTail => trivial
      | wordTail =>
          obtain ⟨c, hc, hcw⟩ := hb
          exact ⟨c, by rw [hhd, hc], hcw⟩

theorem prefix_lithit (lit : List Char) (sh : SpawnShape) (pre l : List Char)
    (hpre : pre.getLast? = some ' ') (h : LitHit lit sh l) :
    LitHit lit sh (pre ++ l) := by
  obtain ⟨a, b, rfl, ha, hb⟩ := h
  refine ⟨pre ++ a, b, by simp [List.append_assoc], ?_, hb⟩
  rcases ha with rfl | ⟨c, hc, hcw⟩
  · exact Or.inr ⟨' ', by rw [List.append_nil]; exact hpre, by decide⟩
  · have hane : a ≠ [] := by
      intro h0
      rw [h0] at hc
      simp at hc
    exact Or.inr ⟨c, by rw [List.getLast?_append_of_ne_nil pre hane]; exact hc, hcw⟩

theorem goStrip_mem :
    ∀ (ls : List (List Char)) (skip : Bool) (l : List Char), l ∈ ls →
      ∃ l' ∈ goStrip skip ls,
        l' = l ∨ ∃ pre, l' = pre ++ pyStrip l ∧ pre.getLast? = some ' ' := by
  intro ls
  induction ls with
  | nil => intro skip l h; simp at h
  | cons x xs ih =>
      intro skip l hl
      rcases List.mem_cons.1 hl with rfl | hl'
      · simp only [goStrip]
        split_ifs with h1 h2 h3
        · exact ⟨cServer (pyStrip l), List.mem_cons_self _ _,
            Or.inr ⟨"# [sandbox] server start removed: ".data, rfl, by decide⟩⟩
        · exact ⟨cMain (pyStrip l), List.mem_cons_self _ _,
            Or.inr ⟨"# [sandbox] main block removed: ".data, rfl, by decide⟩⟩
        · exact ⟨cSkip (pyStrip l), List.mem_cons_self _ _,
            Or.inr ⟨"# [sandbox] ".data, rfl, by decide⟩⟩
        · exact ⟨l, List.mem_cons_self _ _, Or.inl rfl⟩
      · simp only [goStrip]
        split_ifs with h1 h2 h3
        · obtain ⟨l', hmem, hform⟩ := ih skip l hl'
          exact ⟨l', List.mem_cons_of_mem _ hmem, hform⟩
        · obtain ⟨l', hmem, hform⟩ := ih true l hl'
          exact ⟨l', List.mem_cons_of_mem _ hmem, hform⟩
        · obtain ⟨l', hmem, hform⟩ := ih true l hl'
          exact ⟨l', List.mem_cons_of_mem _ hmem, hform⟩
        · obtain ⟨l', hmem, hform⟩ := ih false l hl'
          exact ⟨l', List.mem_cons_of_mem _ hmem, hform⟩

theorem joinLines_lithit (lit : List Char) (sh : SpawnShape) :
    ∀ (ls : List (List Char)) (l : List Char), l ∈ ls → LitHit lit sh l →
      LitHit lit sh (joinLinesL ls) := by
  intro ls
  induction ls with
  | nil => intro l h _; simp at h
  | cons x xs ih =>
      intro l hl hhit
      cases xs with
      | nil =>
          have hx : l = x := by simpa using hl
          subst hx
          simpa [joinLinesL] using hhit
      | cons y xs' =>
          rw [show joinLinesL (x :: y :: xs') = x ++ '\n' :: joinLinesL (y :: xs')
            from rfl]
          rcases List.mem_cons.1 hl with rfl | hl'
          · obtain ⟨a, b, rfl, ha, hb⟩ := hhit
            refine ⟨a, b ++ '\n' :: joinLinesL (y :: xs'),
              by simp [List.append_assoc], ha, ?_⟩
            cases sh with
            | anyTail => trivial
            | bound =>
                rcases hb with rfl | ⟨c, hc, hcw⟩
                · exact Or.inr ⟨'\n', by simp, by decide⟩
                · right
                  refine ⟨c, ?_, hcw⟩
                  cases b with
                  | nil => simp at hc
                  | cons z b' => simpa using hc
            | wordTail =>
                obtain ⟨c, hc, hcw⟩ := hb
                refine ⟨c, ?_, hcw⟩
                cases b with
                | nil => simp at hc
                | cons z b' => simpa using hc
          · obtain ⟨a, b, hjoin, ha, hb⟩ := ih l hl' hhit
            refine ⟨x ++ '\n' :: a, b, ?_, ?_, hb⟩
            · rw [hjoin]
              simp [List.append_assoc]
            · rcases ha with rfl | ⟨c, hc, hcw⟩
              · right
                refine ⟨'\n', ?_, by decide⟩
                rw [List.getLast?_append_cons]
                rfl
              · right
                refine ⟨c, ?_, hcw⟩
                rw [List.getLast?_append_cons]
                cases a with
                | nil => simp at hc
                | cons d a' => rw [List.getLast?_cons_cons]; exact hc

/-! End-to-end preservation: a free-standing OS-spawn occurrence in a python
snippet survives `_strip_server_start`, because the occurrence text contains
no whitespace and no newline, stripping only peels whitespace off line ends,
and every comment prefix the pass inserts ends in a space. -/

theorem lithit_strip (lit : List Char) (sh : SpawnShape)
    (hheadns : ∃ c t, lit = c :: t ∧ isSpaceChar c = false)
    (hlastns : ∃ lc, lit.getLast? = some lc ∧ isSpaceChar lc = false)
    (hnl : ∀ c ∈ lit, c ≠ '\n')
    (code : List Char) (h : LitHit lit sh code) :
    LitHit lit sh (joinLinesL (goStrip false (splitLinesL code))) := by
  obtain ⟨l, hlmem, hl⟩ := lithit_mem_splitLines lit sh hnl code h
  obtain ⟨l', hl'mem, hform⟩ := goStrip_mem _ false l hlmem
  have hl' : LitHit lit sh l' := by
    rcases hform with rfl | ⟨pre, rfl, hpre⟩
    · exact hl
    · exact prefix_lithit lit sh pre _ hpre (pyStrip_lithit lit sh hheadns hlastns l hl)
  exact joinLines_lithit lit sh _ l' hl'mem hl'

theorem containsSpawn_strip (code : String) (h : ContainsSpawn code.data) :
    ContainsSpawn (stripServerStart code "python").data := by
  have hstrip : (stripServerStart code "python").data =
      joinLinesL (goStrip false (splitLinesL code.data)) := rfl
  rw [ContainsSpawn] at h ⊢
  rw [hstrip]
  rcases h with h | h | h | h | h
  · exact Or.inl (lithit_strip _ _ ⟨'o', "s.system".data, by decide, by decide⟩
      ⟨'m', by decide, by decide⟩ (by decide) _ h)
  · exact Or.inr (Or.inl (lithit_strip _ _ ⟨'o', "s.popen".data, by decide, by decide⟩
      ⟨'n', by decide, by decide⟩ (by decide) _ h))
  · exact Or.inr (Or.inr (Or.inl (lithit_strip _ _
      ⟨'o', "s.exec".data, by decide, by decide⟩
      ⟨'c', by decide, by decide⟩ (by decide) _ h)))
  · exact Or.inr (Or.inr (Or.inr (Or.inl (lithit_strip _ _
      ⟨'o', "s.spawn".data, by decide, by decide⟩
      ⟨'n', by decide, by decide⟩ (by decide) _ h))))
  · exact Or.inr (Or.inr (Or.inr (Or.inr (lithit_strip _ _
      ⟨'s', "ubprocess.".data, by decide, by decide⟩
      ⟨'.', by decide, by decide⟩ (by decide) _ h))))

theorem reSearchL_of_containsSpawn (s : List Char) (h : ContainsSpawn s) :
    ∃ p ∈ DANGEROUS_PATTERNS_RE, reSearchL p s = true := by
  rcases h with h | h | h | h | h
  · exact ⟨reOsSystem, List.mem_cons_self _ _,
      reSearchL_wordpat "os.system".data s
        ⟨'o', "s.system".data, by decide, by decide⟩
        ⟨'m', by decide, by decide⟩ h⟩
  · exact ⟨reOsPopen, List.mem_cons_of_mem _ (List.mem_cons_self _ _),
      reSearchL_wordpat "os.popen".data s
        ⟨'o', "s.popen".data, by decide, by decide⟩
        ⟨'n', by decide, by decide⟩ h⟩
  · exact ⟨reOsExec,
      List.mem_cons_of_mem _ (List.mem_cons_of_mem _ (List.mem_cons_self _ _)),
      reSearchL_anytail "os.exec".data s
        ⟨'o', "s.exec".data, by decide, by decide⟩
        ⟨'c', by decide, by decide⟩ h⟩
  · exact ⟨reOsSpawn,
      List.mem_cons_of_mem _ (List.mem_cons_of_mem _ (List.mem_cons_of_mem _
        (List.mem_cons_self _ _))),
      reSearchL_anytail "os.spawn".data s
        ⟨'o', "s.spawn".data, by decide, by decide⟩
        ⟨'n', by decide, by decide⟩ h⟩
  · refine ⟨reSubprocess, ?_,
      reSearchL_wordtail "subprocess.".data s
        ⟨'s', "ubprocess.".data, by decide, by decide⟩ h⟩
    rw [DANGEROUS_PATTERNS_RE]
    exact List.mem_cons_of_mem _ (List.mem_cons_of_mem _ (List.mem_cons_of_mem _
      (List.mem_cons_of_mem _ (List.mem_cons_of_mem _ (List.mem_cons_of_mem _
        (List.mem_cons_of_mem _ (List.mem_cons_of_mem _ (List.mem_cons_self _ _))))))))

theorem validateCode_false_of_spawn (cfg : SandboxConfig) (code : String)
    (h : ContainsSpawn code.data) : validateCode cfg code "python" = false := by
  obtain ⟨p, hpmem, hpm⟩ := reSearchL_of_containsSpawn code.data h
  have hany : DANGEROUS_PATTERNS_RE.any (fun q => reSearch q code) = true :=
    List.any_eq_true.2 ⟨p, hpmem, hpm⟩
  rw [validateCode]
  cases hcp : checkPathSafety cfg code
  · simp
  · have hex : ∃ x ∈ DANGEROUS_PATTERNS_RE, reSearch x code = true := ⟨p, hpmem, hpm⟩
    rw [show langPatterns "python" = some DANGEROUS_PATTERNS_RE from rfl]
    simp [hex]

theorem createPlanSteps_length (tasks : List AgentTask) :
    (createPlanSteps tasks).length = tasks.length := by
  simp [createPlanSteps]

theorem loopGo_log_length_le (oracle : Nat → String × Bool) :
    ∀ fuel st, ((loopGo oracle fuel st).log).length ≤ st.log.length + fuel := by
  intro fuel
  induction fuel with
  | zero => intro st; simp [loopGo]
  | succ n ih =>
      intro st
      rw [loopGo]
      split
      · omega
      · split
        · split
          · simp
          · omega
        · refine le_trans (ih _) ?_
          simp
          omega

theorem find?_decomp {α : Type} (p : α → Bool) :
    ∀ (l : List α) (a : α), l.find? p = some a →
      ∃ l₁ l₂, l = l₁ ++ a :: l₂ ∧ ∀ x ∈ l₁, p x = false := by
  intro l
  induction l with
  | nil => intro a h; simp [List.find?] at h
  | cons x xs ih =>
      intro a h
      rw [List.find?] at h
      by_cases hx : p x = true
      · rw [hx] at h
        simp at h
        exact ⟨[], xs, by simp [h], by simp⟩
      · rw [Bool.not_eq_true] at hx
        rw [hx] at h
        obtain ⟨l₁, l₂, rfl, hl₁⟩ := ih a h
        exact ⟨x :: l₁, l₂, rfl, by
          intro y hy
          rcases List.mem_cons.1 hy with rfl | hy'
          · exact hx
          · exact hl₁ y hy'⟩

theorem runnable_iff_spec (steps : List TaskStep) (s : TaskStep)
    (hid : (steps.map fun t => toString t.id).Nodup) :
    runnableIn steps s = true ↔ SpecEligible steps s := by
  constructor
  · intro h
    rw [runnableIn, Bool.and_eq_true] at h
    obtain ⟨hp, hd⟩ := h
    refine ⟨by simpa using hp, ?_⟩
    intro d hdep t ht hidt
    rw [depsMet, List.all_eq_true] at hd
    have hmatch := hd d hdep
    cases hfind : steps.find? (fun u => toString u.id == d) with
    | none =>
        rw [List.find?_eq_none] at hfind
        exact absurd (by simpa using hidt) (hfind t ht)
    | some u =>
        rw [hfind] at hmatch
        simp at hmatch
        have hu : u ∈ steps := List.mem_of_find?_eq_some hfind
        have hpu : toString u.id = d := by simpa using List.find?_some hfind
        have : u = t :=
          List.inj_on_of_nodup_map hid hu ht (by rw [hpu, hidt])
        rw [← this]
        exact hmatch
  · intro ⟨hp, hforall⟩
    rw [runnableIn, Bool.and_eq_true]
    refine ⟨by simpa using hp, ?_⟩
    rw [depsMet, List.all_eq_true]
    intro d hdep
    cases hfind : steps.find? (fun u => toString u.id == d) with
    | none => simp
    | some u =>
        simp only
        have hu : u ∈ steps := List.mem_of_find?_eq_some hfind
        have hpu : toString u.id = d := by simpa using List.find?_some hfind
        simpa using hforall d hdep u hu hpu

theorem foldl_failUpdate (errs : List String) :
    ∀ s : TaskStep,
      (errs.foldl failUpdate s).attempts = s.attempts + errs.length ∧
      (errs.foldl failUpdate s).max_attempts = s.max_attempts ∧
      (errs ≠ [] →
        (errs.foldl failUpdate s).status =
          if s.max_attempts ≤ s.attempts + errs.length then "failed" else "pending") := by
  induction errs with
  | nil => intro s; simp
  | cons e rest ih =>
      intro s
      have h := ih (failUpdate s e)
      rcases h with ⟨ha, hm, hs⟩
      refine ⟨?_, ?_, ?_⟩
      · rw [List.foldl_cons, ha]
        simp [failUpdate]
        omega
      · rw [List.foldl_cons, hm]
        simp [failUpdate]
      · intro _
        rw [List.foldl_cons]
        rcases List.eq_nil_or_concat rest with rfl | _
        · simp [failUpdate]
        · have hne : rest ≠ [] := by
            rintro rfl
            simp_all
          rw [hs hne]
          simp only [failUpdate, List.length_cons]
          split <;> split <;> first | rfl | omega

/-! ## Claim theorems -/

/-- C2: for every `run_loop` invocation, the loop body that selects and
executes a step runs at most `4 × N` times, where `N` is the number of
steps in the initial plan built from the input task list, regardless of
how many recovery steps `revise_plan` appends during the run (the bound
`max_iterations = len(plan.steps) * 4` is computed before the loop from
the initial plan and never updated). -/
theorem c2_iteration_bound (oracle : Nat → String × Bool) (tasks : List AgentTask) :
    ((runLoop oracle tasks).log).length ≤ 4 * tasks.length := by
  have h := loopGo_log_length_le oracle ((createPlanSteps tasks).length * 4)
    ⟨createPlanSteps tasks, 0, 0, []⟩
  rw [runLoop]
  simp only [List.length_nil, Nat.zero_add] at h
  calc ((loopGo oracle ((createPlanSteps tasks).length * 4)
          ⟨createPlanSteps tasks, 0, 0, []⟩).log).length
      ≤ (createPlanSteps tasks).length * 4 := h
    _ = 4 * tasks.length := by rw [createPlanSteps_length]; omega

/-- C3: `get_next_step` returns the first step in plan order that is
pending with every dependency id either absent from the plan or pointing
(only) at completed steps, returns `none` when no such step exists, and
never returns a step having a dependency id that exists in the plan on a
non-completed step.  Step ids are assumed unique, as the plan model
guarantees. -/
theorem c3_get_next_step (steps : List TaskStep)
    (hid : (steps.map fun t => toString t.id).Nodup) :
    (∀ s, getNextStep steps = some s →
        ∃ l₁ l₂, steps = l₁ ++ s :: l₂ ∧ SpecEligible steps s ∧
          ∀ t ∈ l₁, ¬ SpecEligible steps t) ∧
    (getNextStep steps = none → ∀ s ∈ steps, ¬ SpecEligible steps s) ∧
    (∀ s, getNextStep steps = some s →
        ∀ d ∈ s.dependencies, ∀ t ∈ steps, toString t.id = d →
          t.status = "completed") := by
  refine ⟨?_, ?_, ?_⟩
  · intro s hs
    obtain ⟨l₁, l₂, heq, hfirst⟩ := find?_decomp _ _ _ hs
    have hrun : runnableIn steps s = true := List.find?_some hs
    refine ⟨l₁, l₂, heq, (runnable_iff_spec steps s hid).1 hrun, ?_⟩
    intro t ht hspec
    have := (runnable_iff_spec steps t hid).2 hspec
    rw [hfirst t ht] at this
    exact Bool.false_ne_true this
  · intro hnone s hmem hspec
    rw [getNextStep, List.find?_eq_none] at hnone
    exact hnone s hmem ((runnable_iff_spec steps s hid).2 hspec)
  · intro s hs
    have hrun : runnableIn steps s = true := List.find?_some hs
    exact ((runnable_iff_spec steps s hid).1 hrun).2

/-- Witness for C3 at a concrete two-step plan: step 2 depends on the
completed step 1, is the first eligible step, and is the one returned. -/
theorem c3_get_next_step_witness :
    SpecEligible
      [({ id := 1, description := "a", agent_type := "coder",
          status := "completed" } : TaskStep),
       { id := 2, description := "b", agent_type := "file",
         dependencies := ["1"] }]
      { id := 2, description := "b", agent_type := "file",
        dependencies := ["1"] } ∧
    getNextStep
      [({ id := 1, description := "a", agent_type := "coder",
          status := "completed" } : TaskStep),
       { id := 2, description := "b", agent_type := "file",
         dependencies := ["1"] }] =
      some { id := 2, description := "b", agent_type := "file",
             dependencies := ["1"] } := by
  obtain ⟨l₁, l₂, heq, helig, -⟩ := (c3_get_next_step
    [{ id := 1, description := "a", agent_type := "coder", status := "completed" },
     { id := 2, description := "b", agent_type := "file", dependencies := ["1"] }]
    (by decide)).1
    { id := 2, description := "b", agent_type := "file", dependencies := ["1"] }
    (by decide)
  exact ⟨helig, by decide⟩

/-- C4: each failure recording (`mark_step_failed`, and the failure branch
of `reflect`) increments `attempts` by one and stores the error; if the new
count reaches `max_attempts` the status becomes `failed`, which is terminal
(a later recording keeps it failed, and a failed step is never selected for
another run), otherwise the status returns to `pending` with the error
retained; failing exactly `max_attempts` times drives a fresh step to
`failed`. -/
theorem c4_failure_recording (s : TaskStep) (err : String) :
    ((failUpdate s err).attempts = s.attempts + 1 ∧
      (failUpdate s err).error = err ∧
      (s.max_attempts ≤ s.attempts + 1 → (failUpdate s err).status = "failed") ∧
      (s.attempts + 1 < s.max_attempts → (failUpdate s err).status = "pending")) ∧
    reflectStep s err false = failUpdate s err ∧
    (∀ pre post, (∀ t ∈ pre, t.id ≠ s.id) →
        markStepFailed (pre ++ s :: post) s.id err = pre ++ failUpdate s err :: post) ∧
    (s.max_attempts ≤ s.attempts → (failUpdate s err).status = "failed") ∧
    (∀ steps, s.status = "failed" → getNextStep steps ≠ some s) ∧
    (∀ errs : List String, s.attempts = 0 → errs.length = s.max_attempts →
        1 ≤ s.max_attempts → (errs.foldl failUpdate s).status = "failed") := by
  refine ⟨⟨?_, ?_, ?_, ?_⟩, ?_, ?_, ?_, ?_, ?_⟩
  · simp [failUpdate]
  · simp [failUpdate]
  · intro h; simp [failUpdate, h]
  · intro h; simp [failUpdate]; omega
  · simp [reflectStep]
  · intro pre post hpre
    induction pre with
    | nil => simp [markStepFailed]
    | cons x xs ih =>
        have hx : x.id ≠ s.id := hpre x (List.mem_cons_self x xs)
        rw [List.cons_append, markStepFailed, if_neg hx]
        rw [List.cons_append]
        exact congrArg (x :: ·) (ih fun t ht => hpre t (List.mem_cons_of_mem x ht))
  · intro h; simp [failUpdate]; omega
  · intro steps hfail hsel
    have hrun : runnableIn steps s = true := List.find?_some hsel
    rw [runnableIn, Bool.and_eq_true] at hrun
    have : s.status = "pending" := by simpa using hrun.1
    rw [hfail] at this
    exact absurd this (by decide)
  · intro errs h0 hlen h1
    have h := (foldl_failUpdate errs s).2.2
    have hne : errs ≠ [] := by
      intro hnil
      rw [hnil] at hlen
      simp at hlen
      omega
    rw [h hne, h0, hlen]
    simp

/-- Witness for C4: a fresh step with the default retry budget of 3 is
`failed` after exactly three failure recordings. -/
theorem c4_failure_recording_witness :
    ((["e1", "e2", "e3"] : List String).foldl failUpdate
        { id := 1, description := "d", agent_type := "coder" }).status = "failed" := by
  exact (c4_failure_recording { id := 1, description := "d", agent_type := "coder" }
    "e").2.2.2.2.2 ["e1", "e2", "e3"] rfl rfl (by decide)

/-- C8 counterexample: the claim says stderr is also hard-capped at 50,000
characters, but the result assembly truncates stdout only — a 50,001-char
stderr comes back unchanged and `truncated` stays false. -/
theorem c8_stderr_uncapped_counterexample :
    (String.mk (List.replicate 50001 'a')).length = 50001 ∧
    MAX_OUTPUT_LENGTH = 50000 ∧
    processOutputs "" (String.mk (List.replicate 50001 'a')) =
      ("", String.mk (List.replicate 50001 'a'), false) := by
  refine ⟨?_, rfl, ?_⟩
  · rw [show (String.mk (List.replicate 50001 'a')).length =
        (List.replicate 50001 'a').length from rfl]
    rw [List.length_replicate]
  · rfl

/-- C8 amended: on a normal (non-timeout) exit, captured stdout is
hard-capped at 50,000 characters — when longer, the returned output is its
first 50,000 characters followed by a note naming exactly
`length - 50,000` omitted characters and `truncated=true`; when not, it is
returned unchanged with `truncated=false` — while stderr is always
returned unchanged and never truncated. -/
theorem c8_stdout_cap_stderr_verbatim (out err : String) :
    (processOutputs out err).2.1 = err ∧
    (MAX_OUTPUT_LENGTH < out.length →
      (processOutputs out err).1 =
        String.mk (out.data.take MAX_OUTPUT_LENGTH) ++
          ("\n\n... [output truncated, " ++ toString (out.length - MAX_OUTPUT_LENGTH) ++
            " chars omitted]") ∧
      (processOutputs out err).2.2 = true) ∧
    (out.length ≤ MAX_OUTPUT_LENGTH →
      (processOutputs out err).1 = out ∧ (processOutputs out err).2.2 = false) := by
  refine ⟨rfl, ?_, ?_⟩
  · intro h
    constructor
    · simp only [processOutputs, truncateOutput, if_pos h]
      simp [String.append_assoc]
    · simp [processOutputs, truncateOutput, if_pos h]
  · intro h
    have hx : ¬ MAX_OUTPUT_LENGTH < out.length := by omega
    constructor
    · simp [processOutputs, truncateOutput, if_neg hx]
    · simp [processOutputs, truncateOutput, if_neg hx]

/-- Witness for C8 (amended): a two-char stdout is under the cap and comes
back unchanged with `truncated=false`, stderr verbatim. -/
theorem c8_stdout_cap_stderr_verbatim_witness :
    (processOutputs "hi" "oops").2.1 = "oops" ∧
    (processOutputs "hi" "oops").1 = "hi" ∧
    (processOutputs "hi" "oops").2.2 = false := by
  have h := c8_stdout_cap_stderr_verbatim "hi" "oops"
  have hc := h.2.2 (by decide)
  exact ⟨h.1, hc.1, hc.2⟩

/-- C9: `revise_plan` appends exactly one recovery step, whose capability
follows the case-insensitive error matching of the source (import errors
keep the failed step's capability, lower-cased; permission errors go to
`file`; syntax errors to `coder`; timeout/connection errors to `web`;
anything else through the swap table coder→file, file→coder, web→casual,
casual→coder), which inherits the failed step's dependencies, has
`max_attempts = 2`, and whose description ends with the original error
truncated to 500 characters plus the use-a-different-approach
instruction. -/
theorem c9_revise_plan (steps : List TaskStep) (failed : TaskStep) :
    revisePlan steps failed = steps ++ [recoveryStep steps failed] ∧
    (recoveryStep steps failed).max_attempts = 2 ∧
    (recoveryStep steps failed).dependencies = failed.dependencies ∧
    (∃ base, (recoveryStep steps failed).description = base ++ recoveryErrSuffix failed) ∧
    recoveryErrSuffix failed =
      "\n\nERROR SEBELUMNYA:\n" ++
        String.mk ((if failed.error == "" then "Unknown error" else failed.error).data.take 500) ++
        "\nINSTRUKSI: Gunakan pendekatan BERBEDA. Jangan ulangi cara yang sama. Kamu dilarang meminta klarifikasi, langsung eksekusi." ∧
    ((isSubstr "no module named" (toLowerStr failed.error) ||
        isSubstr "import" (toLowerStr failed.error)) = true →
      (recoveryStep steps failed).agent_type = toLowerStr failed.agent_type) ∧
    ((isSubstr "no module named" (toLowerStr failed.error) ||
        isSubstr "import" (toLowerStr failed.error)) = false →
      (isSubstr "permission" (toLowerStr failed.error) ||
        isSubstr "access denied" (toLowerStr failed.error)) = true →
      (recoveryStep steps failed).agent_type = "file") ∧
    ((isSubstr "no module named" (toLowerStr failed.error) ||
        isSubstr "import" (toLowerStr failed.error)) = false →
      (isSubstr "permission" (toLowerStr failed.error) ||
        isSubstr "access denied" (toLowerStr failed.error)) = false →
      (isSubstr "syntax" (toLowerStr failed.error) ||
        isSubstr "syntaxerror" (toLowerStr failed.error)) = true →
      (recoveryStep steps failed).agent_type = "coder") ∧
    ((isSubstr "no module named" (toLowerStr failed.error) ||
        isSubstr "import" (toLowerStr failed.error)) = false →
      (isSubstr "permission" (toLowerStr failed.error) ||
        isSubstr "access denied" (toLowerStr failed.error)) = false →
      (isSubstr "syntax" (toLowerStr failed.error) ||
        isSubstr "syntaxerror" (toLowerStr failed.error)) = false →
      (isSubstr "timeout" (toLowerStr failed.error) ||
        isSubstr "connection" (toLowerStr failed.error)) = true →
      (recoveryStep steps failed).agent_type = "web") ∧
    ((isSubstr "no module named" (toLowerStr failed.error) ||
        isSubstr "import" (toLowerStr failed.error)) = false →
      (isSubstr "permission" (toLowerStr failed.error) ||
        isSubstr "access denied" (toLowerStr failed.error)) = false →
      (isSubstr "syntax" (toLowerStr failed.error) ||
        isSubstr "syntaxerror" (toLowerStr failed.error)) = false →
      (isSubstr "timeout" (toLowerStr failed.error) ||
        isSubstr "connection" (toLowerStr failed.error)) = false →
      ((toLowerStr failed.agent_type = "coder" →
          (recoveryStep steps failed).agent_type = "file") ∧
       (toLowerStr failed.agent_type = "file" →
          (recoveryStep steps failed).agent_type = "coder") ∧
       (toLowerStr failed.agent_type = "web" →
          (recoveryStep steps failed).agent_type = "casual") ∧
       (toLowerStr failed.agent_type = "casual" →
          (recoveryStep steps failed).agent_type = "coder"))) := by
  refine ⟨rfl, rfl, rfl, ⟨(recoveryAgentAndDesc failed).2, rfl⟩, rfl, ?_, ?_, ?_, ?_, ?_⟩
  · intro h1
    simp [recoveryStep, recoveryAgentAndDesc, h1]
  · intro h1 h2
    simp [recoveryStep, recoveryAgentAndDesc, h1, h2]
  · intro h1 h2 h3
    simp [recoveryStep, recoveryAgentAndDesc, h1, h2, h3]
  · intro h1 h2 h3 h4
    simp [recoveryStep, recoveryAgentAndDesc, h1, h2, h3, h4]
  · intro h1 h2 h3 h4
    refine ⟨?_, ?_, ?_, ?_⟩ <;> intro hlow <;>
      simp [recoveryStep, recoveryAgentAndDesc, h1, h2, h3, h4, hlow]

/-- Witness for C9: a module-import failure on a `Coder` step yields a
recovery step for the lower-cased same capability. -/
theorem c9_revise_plan_witness :
    (recoveryStep []
      { id := 1, description := "d", agent_type := "Coder",
        error := "No module named 'requests'" }).agent_type = "coder" := by
  exact (c9_revise_plan []
    { id := 1, description := "d", agent_type := "Coder",
      error := "No module named 'requests'" }).2.2.2.2.2.1 (by decide)

/-- C10: a language whose lower-cased, stripped form is not one of the
supported runner keys makes `Sandbox.run` return a SandboxResult with
`success=false`, `blocked=false`, `timed_out=false`, `execution_time=0`,
empty output and an `Unsupported language` error message, without
appending anything to the execution history. -/
theorem c10_unsupported_language (cfg : SandboxConfig) (code language : String)
    (h : pyStripStr (toLowerStr language) ∉
      (["python", "bash", "javascript", "js", "nodejs", "node", "go", "golang"] :
        List String)) :
    sandboxRun cfg code language =
      RunOutcome.rejected (unsupportedRunResult (pyStripStr (toLowerStr language))) ∧
    historyEntry (sandboxRun cfg code language) = none ∧
    (unsupportedRunResult (pyStripStr (toLowerStr language))).success = false ∧
    (unsupportedRunResult (pyStripStr (toLowerStr language))).blocked = false ∧
    (unsupportedRunResult (pyStripStr (toLowerStr language))).timed_out = false ∧
    (unsupportedRunResult (pyStripStr (toLowerStr language))).execution_time = 0 ∧
    (unsupportedRunResult (pyStripStr (toLowerStr language))).output = "" ∧
    ∃ rest, (unsupportedRunResult (pyStripStr (toLowerStr language))).errors =
      "Unsupported language: " ++ rest := by
  simp only [List.mem_cons, List.not_mem_nil, or_false, not_or] at h
  obtain ⟨h1, h2, h3, h4, h5, h6, h7, h8⟩ := h
  have hrun : sandboxRun cfg code language =
      RunOutcome.rejected (unsupportedRunResult (pyStripStr (toLowerStr language))) := by
    simp [sandboxRun, h1, h2, h3, h4, h5, h6, h7, h8]
  refine ⟨hrun, ?_, rfl, rfl, rfl, rfl, rfl,
    ⟨pyStripStr (toLowerStr language) ++ ". Supported: python, javascript, nodejs, bash, go",
     ?_⟩⟩
  · rw [hrun]; rfl
  · rw [unsupportedRunResult, String.append_assoc]

/-- Witness for C10: running with language `"  RuBy "` is rejected and
leaves no history entry. -/
theorem c10_unsupported_language_witness :
    historyEntry (sandboxRun cfgDefault "print(1)" "  RuBy ") = none := by
  exact (c10_unsupported_language cfgDefault "print(1)" "  RuBy " (by decide)).2.1

/-- C7: shell commands get exactly one of three policies, in order:
a system package-manager install is never executed and yields a result
with `success=true` and an explanatory blocked message; otherwise an
application-level package-manager command is executed directly, bypassing
the denylist scan (with the `--break-system-packages` flag stripped);
otherwise the command is scanned against the bash denylist — a refusal
returns `blocked=true`, `success=false`, and only a clean command is
executed.  In particular `pip install requests` executes normally and
`apt-get install nmap` returns `success=true`. -/
theorem c7_shell_policy (cfg : SandboxConfig) (command : String) :
    sandboxRun cfg command "bash" =
      RunOutcome.dispatched "bash" (execShellDecision cfg command) ∧
    (isSystemInstall command = true →
      execShellDecision cfg command = ExecDecision.finished (systemInstallResult command) ∧
      (systemInstallResult command).success = true ∧
      ∃ rest, (systemInstallResult command).output =
        "[blocked] System package install not allowed: " ++ rest) ∧
    (isSystemInstall command = false → isAllowedInstall command = true →
      execShellDecision cfg command = ExecDecision.runShell (removeBreakFlag command)) ∧
    (isSystemInstall command = false → isAllowedInstall command = false →
      (validateCode cfg command "bash" = false →
        execShellDecision cfg command = ExecDecision.finished (blockedResult "bash") ∧
        (blockedResult "bash").blocked = true ∧ (blockedResult "bash").success = false) ∧
      (validateCode cfg command "bash" = true →
        execShellDecision cfg command = ExecDecision.runShell command)) ∧
    execShellDecision cfg "pip install requests" =
      ExecDecision.runShell "pip install requests" ∧
    (execShellDecision cfg "apt-get install nmap" =
      ExecDecision.finished (systemInstallResult "apt-get install nmap") ∧
     (systemInstallResult "apt-get install nmap").success = true) := by
  refine ⟨rfl, ?_, ?_, ?_, ?_, ?_⟩
  · intro h1
    refine ⟨by simp [execShellDecision, h1], rfl,
      ⟨pyStripStr command ++ "\nGunakan pip/npm/yarn untuk install packages.", ?_⟩⟩
    rw [systemInstallResult, String.append_assoc]
  · intro h1 h2
    simp [execShellDecision, h1, h2]
  · intro h1 h2
    constructor
    · intro h3
      exact ⟨by simp [execShellDecision, h1, h2, h3], rfl, rfl⟩
    · intro h3
      simp [execShellDecision, h1, h2, h3]
  · have h1 : isSystemInstall "pip install requests" = false := by decide
    have h2 : isAllowedInstall "pip install requests" = true := by decide
    have h3 : removeBreakFlag "pip install requests" = "pip install requests" := by decide
    simp [execShellDecision, h1, h2, h3]
  · have h1 : isSystemInstall "apt-get install nmap" = true := by decide
    exact ⟨by simp [execShellDecision, h1], rfl⟩

/-- Witness for C7: `apt install foo` takes the system-install policy,
yielding an unexecuted success-with-message result. -/
theorem c7_shell_policy_witness :
    execShellDecision cfgDefault "apt install foo" =
      ExecDecision.finished (systemInstallResult "apt install foo") ∧
    (systemInstallResult "apt install foo").success = true := by
  have h := (c7_shell_policy cfgDefault "apt install foo").2.1 (by decide)
  exact ⟨h.1, h.2.1⟩

/-- The helper for C6: a predicate holding at two distinct positions of a
list is counted at least twice. -/
theorem countP_ge_two_of_split {α : Type} (p : α → Bool) (l₁ l₂ l₃ : List α) (a b : α)
    (ha : p a = true) (hb : p b = true) :
    2 ≤ (l₁ ++ a :: (l₂ ++ b :: l₃)).countP p := by
  simp [List.countP_append, List.countP_cons, ha, hb]
  omega

theorem serverIndicatorCount_eq_countP (code : List Char) :
    serverIndicatorCount code =
      SERVER_INDICATORS_RE.countP fun p => reSearchL p code := by
  rw [serverIndicatorCount, List.countP_eq_length_filter]

/-- C6: a python snippet matching at least two server-code indicators is
never executed — `Sandbox.run` immediately returns the synthetic
`success=true` result with empty errors and `execution_time=0`; in
particular a snippet with both a web-framework import and a server-start
call (each an indicator) matches two indicators and so gets that synthetic
success. -/
theorem c6_server_code (cfg : SandboxConfig) (code : String) :
    (isServerCode code = true →
      sandboxRun cfg code "python" =
        RunOutcome.dispatched "python" (ExecDecision.finished (serverCodeResult "python")) ∧
      (serverCodeResult "python").success = true ∧
      (serverCodeResult "python").errors = "" ∧
      (serverCodeResult "python").execution_time = 0) ∧
    ((reSearchL indFromFlask code.data || reSearchL indFromFastapi code.data ||
        reSearchL indImportFlask code.data || reSearchL indImportFastapi code.data) = true →
      (reSearchL indAppRun code.data || reSearchL indUvicornRun code.data) = true →
      isServerCode code = true) := by
  constructor
  · intro h
    refine ⟨?_, rfl, rfl, rfl⟩
    have hd : execCodeDecision cfg code "python" =
        ExecDecision.finished (serverCodeResult "python") := by
      simp [execCodeDecision, h]
    show RunOutcome.dispatched "python" (execCodeDecision cfg code "python") =
      RunOutcome.dispatched "python" (ExecDecision.finished (serverCodeResult "python"))
    rw [hd]
  · intro hImp hRun
    have hne : code.data ≠ [] := by
      intro h0
      rw [h0] at hImp
      revert hImp
      decide
    rw [isServerCode, Bool.and_eq_true]
    refine ⟨by simpa using hne, ?_⟩
    rw [decide_eq_true_eq, serverIndicatorCount_eq_countP]
    simp only [Bool.or_eq_true] at hImp hRun
    rcases hImp with ((h | h) | h) | h <;> rcases hRun with h' | h'
    · rw [show SERVER_INDICATORS_RE = [] ++ indFromFlask ::
          ([indFromFastapi, indImportFlask, indImportFastapi, indAppFlask, indAppFastAPI] ++
            indAppRun :: [indUvicornRun, indRoute, indMethodDec]) from rfl]
      exact countP_ge_two_of_split _ _ _ _ _ _ h h'
    · rw [show SERVER_INDICATORS_RE = [] ++ indFromFlask ::
          ([indFromFastapi, indImportFlask, indImportFastapi, indAppFlask, indAppFastAPI,
            indAppRun] ++ indUvicornRun :: [indRoute, indMethodDec]) from rfl]
      exact countP_ge_two_of_split _ _ _ _ _ _ h h'
    · rw [show SERVER_INDICATORS_RE = [indFromFlask] ++ indFromFastapi ::
          ([indImportFlask, indImportFastapi, indAppFlask, indAppFastAPI] ++
            indAppRun :: [indUvicornRun, indRoute, indMethodDec]) from rfl]
      exact countP_ge_two_of_split _ _ _ _ _ _ h h'
    · rw [show SERVER_INDICATORS_RE = [indFromFlask] ++ indFromFastapi ::
          ([indImportFlask, indImportFastapi, indAppFlask, indAppFastAPI, indAppRun] ++
            indUvicornRun :: [indRoute, indMethodDec]) from rfl]
      exact countP_ge_two_of_split _ _ _ _ _ _ h h'
    · rw [show SERVER_INDICATORS_RE = [indFromFlask, indFromFastapi] ++ indImportFlask ::
          ([indImportFastapi, indAppFlask, indAppFastAPI] ++
            indAppRun :: [indUvicornRun, indRoute, indMethodDec]) from rfl]
      exact countP_ge_two_of_split _ _ _ _ _ _ h h'
    · rw [show SERVER_INDICATORS_RE = [indFromFlask, indFromFastapi] ++ indImportFlask ::
          ([indImportFastapi, indAppFlask, indAppFastAPI, indAppRun] ++
            indUvicornRun :: [indRoute, indMethodDec]) from rfl]
      exact countP_ge_two_of_split _ _ _ _ _ _ h h'
    · rw [show SERVER_INDICATORS_RE = [indFromFlask, indFromFastapi, indImportFlask] ++
          indImportFastapi :: ([indAppFlask, indAppFastAPI] ++
            indAppRun :: [indUvicornRun, indRoute, indMethodDec]) from rfl]
      exact countP_ge_two_of_split _ _ _ _ _ _ h h'
    · rw [show SERVER_INDICATORS_RE = [indFromFlask, indFromFastapi, indImportFlask] ++
          indImportFastapi :: ([indAppFlask, indAppFastAPI, indAppRun] ++
            indUvicornRun :: [indRoute, indMethodDec]) from rfl]
      exact countP_ge_two_of_split _ _ _ _ _ _ h h'

/-- C1 counterexample: a snippet containing a direct OS-process-spawn call
(`os.system`) that also matches two server-code indicators is returned as a
synthetic success (`success=true`, `blocked=false`) without the denylist
scan ever running, refuting the claim that such snippets always yield
`blocked=true` and `success=false`. -/
theorem c1_server_bypass_counterexample :
    ContainsSpawn ("import flask\napp = Flask(a)\nos.system(b)" : String).data ∧
    sandboxRun cfgDefault "import flask\napp = Flask(a)\nos.system(b)" "python" =
      RunOutcome.dispatched "python" (ExecDecision.finished (serverCodeResult "python")) ∧
    (serverCodeResult "python").success = true ∧
    (serverCodeResult "python").blocked = false := by
  refine ⟨Or.inl ⟨"import flask\napp = Flask(a)\n".data, "(b)".data, by decide,
    Or.inr ⟨'\n', by decide, by decide⟩, Or.inr ⟨'(', by decide, by decide⟩⟩,
    ?_, rfl, rfl⟩
  decide

/-- C1 (amended): a snippet containing a direct OS-process-spawn call
(text matching `os.system`, `os.popen`, `os.exec*`, `os.spawn*` or
`subprocess.*` as a free-standing occurrence) is never executed; unless the
snippet is classified as server code (at least two server indicators), the
run returns `blocked=true` and `success=false`; a server-classified snippet
is still never executed but returns the synthetic success instead. -/
theorem c1_os_spawn_blocked (cfg : SandboxConfig) (code : String)
    (h : ContainsSpawn code.data) :
    (isServerCode code = false →
      sandboxRun cfg code "python" =
        RunOutcome.dispatched "python" (ExecDecision.finished (blockedResult "python")) ∧
      (blockedResult "python").blocked = true ∧
      (blockedResult "python").success = false) ∧
    (isServerCode code = true →
      sandboxRun cfg code "python" =
        RunOutcome.dispatched "python" (ExecDecision.finished (serverCodeResult "python")) ∧
      (serverCodeResult "python").success = true) := by
  constructor
  · intro hs
    refine ⟨?_, rfl, rfl⟩
    have hv : validateCode cfg (stripServerStart code "python") "python" = false :=
      validateCode_false_of_spawn cfg _ (containsSpawn_strip code h)
    have hd : execCodeDecision cfg code "python" =
        ExecDecision.finished (blockedResult "python") := by
      simp [execCodeDecision, hs, hv]
    show RunOutcome.dispatched "python" (execCodeDecision cfg code "python") =
      RunOutcome.dispatched "python" (ExecDecision.finished (blockedResult "python"))
    rw [hd]
  · intro hs
    refine ⟨?_, rfl⟩
    have hd : execCodeDecision cfg code "python" =
        ExecDecision.finished (serverCodeResult "python") := by
      simp [execCodeDecision, hs]
    show RunOutcome.dispatched "python" (execCodeDecision cfg code "python") =
      RunOutcome.dispatched "python" (ExecDecision.finished (serverCodeResult "python"))
    rw [hd]

/-- Witness for C1 (amended): `os.system` inside a non-server snippet is
blocked before any execution. -/
theorem c1_os_spawn_blocked_witness :
    sandboxRun cfgDefault "import os\nos.system(c)" "python" =
      RunOutcome.dispatched "python" (ExecDecision.finished (blockedResult "python")) := by
  have h : ContainsSpawn ("import os\nos.system(c)" : String).data :=
    Or.inl ⟨"import os\n".data, "(c)".data, by decide,
      Or.inr ⟨'\n', by decide, by decide⟩, Or.inr ⟨'(', by decide, by decide⟩⟩
  exact ((c1_os_spawn_blocked cfgDefault _ h).1 (by decide)).1

/-- Witness for C6: a snippet holding a flask import and an `app.run(`
call is classified as server code and gets the synthetic success. -/
theorem c6_server_code_witness :
    sandboxRun cfgDefault "import flask\napp.run()" "python" =
      RunOutcome.dispatched "python" (ExecDecision.finished (serverCodeResult "python")) ∧
    (serverCodeResult "python").success = true := by
  have h := c6_server_code cfgDefault "import flask\napp.run()"
  have hs : isServerCode "import flask\napp.run()" = true :=
    h.2 (by decide) (by decide)
  exact ⟨(h.1 hs).1, (h.1 hs).2.1⟩


/-! helper lemmas for the loop-termination argument -/

theorem list_set_get_self {α : Type} (l : List α) (i : Nat) (a : α) (h : i < l.length) :
    (l.set i a).get? i = some a := by
  rw [List.get?_eq_getElem?, List.getElem?_set_self]
  exact h

theorem list_set_get_ne {α : Type} (l : List α) (i j : Nat) (a : α) (h : i ≠ j) :
    (l.set i a).get? j = l.get? j := by
  rw [List.get?_eq_getElem?, List.get?_eq_getElem?, List.getElem?_set_ne h]

theorem list_set_id {α : Type} :
    ∀ (l : List α) (i : Nat) (a : α), l.get? i = some a → l.set i a = l := by
  intro l
  induction l with
  | nil => intro i a h; simp at h
  | cons x xs ih =>
      intro i a h
      cases i with
      | zero =>
          rw [List.get?_cons_zero] at h
          have h2 := Option.some.inj h
          subst h2
          simp [List.set]
      | succ n =>
          rw [List.get?_cons_succ] at h
          simp [List.set, ih n a h]

theorem nodup_map_get_inj {α β : Type} (f : α → β) (l : List α)
    (hnd : (l.map f).Nodup) (i j : Nat) (a b : α)
    (hi : l.get? i = some a) (hj : l.get? j = some b) (hf : f a = f b) : i = j := by
  have hi2 : (l.map f).get? i = some (f a) := by
    rw [List.get?_map, hi]; rfl
  have hj2 : (l.map f).get? j = some (f b) := by
    rw [List.get?_map, hj]; rfl
  have hlen : i < (l.map f).length := by
    rcases List.get?_eq_some.mp hi2 with ⟨h, _⟩; exact h
  apply List.getElem?_inj hlen hnd
  rw [← List.get?_eq_getElem?, ← List.get?_eq_getElem?, hi2, hj2, hf]

theorem selectAux_spec (full : List TaskStep) :
    ∀ (l : List TaskStep) (k i : Nat) (s : TaskStep),
      selectAux full l k = some (i, s) →
      k ≤ i ∧ l.get? (i - k) = some s ∧ runnableIn full s = true := by
  intro l
  induction l with
  | nil => intro k i s h; simp [selectAux] at h
  | cons x xs ih =>
      intro k i s h
      rw [selectAux] at h
      by_cases hr : runnableIn full x = true
      · rw [if_pos hr] at h
        have h2 : k = i ∧ x = s := by simpa using h
        obtain ⟨rfl, rfl⟩ := h2
        exact ⟨le_refl k, by simp, hr⟩
      · rw [if_neg hr] at h
        obtain ⟨hk, hg, hrun⟩ := ih (k + 1) i s h
        refine ⟨by omega, ?_, hrun⟩
        have he : i - k = (i - (k + 1)) + 1 := by omega
        rw [he]
        simpa using hg

theorem selectAux_find (full : List TaskStep) :
    ∀ (l : List TaskStep) (k : Nat),
      (selectAux full l k).map Prod.snd = l.find? (runnableIn full) := by
  intro l
  induction l with
  | nil => intro k; simp [selectAux]
  | cons x xs ih =>
      intro k
      rw [selectAux]
      by_cases hr : runnableIn full x = true
      · rw [if_pos hr, List.find?_cons_of_pos _ hr]; rfl
      · rw [if_neg hr, List.find?_cons_of_neg _ hr]
        exact ih (k + 1)

theorem getNextStep_eq_selectStep (steps : List TaskStep) :
    getNextStep steps = (selectStep steps).map Prod.snd := by
  rw [getNextStep, selectStep, selectAux_find]

theorem stepKey_fields (s t : TaskStep) (h : stepKey s = stepKey t) :
    s.id = t.id ∧ s.status = t.status ∧ s.dependencies = t.dependencies := by
  rw [stepKey, stepKey, Prod.mk.injEq, Prod.mk.injEq] at h
  exact ⟨h.1, h.2.1, h.2.2⟩

theorem find_status_congr :
    ∀ (A B : List TaskStep), A.map stepKey = B.map stepKey → ∀ d : String,
      (A.find? fun t => toString t.id == d).map TaskStep.status =
        (B.find? fun t => toString t.id == d).map TaskStep.status := by
  intro A
  induction A with
  | nil =>
      intro B h d
      have hB : B = [] := by cases B with
        | nil => rfl
        | cons b bs => simp at h
      subst hB; rfl
  | cons a as ih =>
      intro B h d
      cases B with
      | nil => simp at h
      | cons b bs =>
          rw [List.map_cons, List.map_cons] at h
          injection h with hk ht
          obtain ⟨hid, hst, -⟩ := stepKey_fields a b hk
          by_cases hp : (toString a.id == d) = true
          · have hpb : (toString b.id == d) = true := by rw [← hid]; exact hp
            simp only [List.find?_cons, hp, hpb]
            simp [hst]
          · rw [Bool.not_eq_true] at hp
            have hpb : (toString b.id == d) = false := by rw [← hid]; exact hp
            simp only [List.find?_cons, hp, hpb]
            exact ih bs ht d

theorem depsMet_congr (A B : List TaskStep) (h : A.map stepKey = B.map stepKey)
    (s t : TaskStep) (hst : stepKey s = stepKey t) : depsMet A s = depsMet B t := by
  obtain ⟨-, -, hdep⟩ := stepKey_fields s t hst
  have hfun : (fun depId => match A.find? (fun u => toString u.id == depId) with
      | none => true
      | some depStep => depStep.status == "completed") =
      (fun depId => match B.find? (fun u => toString u.id == depId) with
      | none => true
      | some depStep => depStep.status == "completed") := by
    funext d
    have hmap := find_status_congr A B h d
    cases hA : A.find? (fun u => toString u.id == d) with
    | none =>
        cases hB : B.find? (fun u => toString u.id == d) with
        | none => rfl
        | some v => rw [hA, hB] at hmap; simp at hmap
    | some u =>
        cases hB : B.find? (fun u => toString u.id == d) with
        | none => rw [hA, hB] at hmap; simp at hmap
        | some v =>
            rw [hA, hB] at hmap
            have hsv : u.status = v.status := by simpa using hmap
            simp [hsv]
  rw [depsMet, depsMet, hdep, hfun]

theorem runnableIn_congr (A B : List TaskStep) (h : A.map stepKey = B.map stepKey)
    (s t : TaskStep) (hst : stepKey s = stepKey t) : runnableIn A s = runnableIn B t := by
  obtain ⟨-, hstat, -⟩ := stepKey_fields s t hst
  rw [runnableIn, runnableIn, hstat, depsMet_congr A B h s t hst]

theorem selectAux_congr (full fullB : List TaskStep)
    (hf : full.map stepKey = fullB.map stepKey) :
    ∀ (A B : List TaskStep), A.map stepKey = B.map stepKey → ∀ k : Nat,
      (selectAux full A k = none → selectAux fullB B k = none) ∧
      (∀ i s, selectAux full A k = some (i, s) →
        ∃ t, stepKey t = stepKey s ∧ selectAux fullB B k = some (i, t)) := by
  intro A
  induction A with
  | nil =>
      intro B h k
      have hB : B = [] := by cases B with
        | nil => rfl
        | cons b bs => simp at h
      subst hB
      exact ⟨fun _ => rfl, fun i s h2 => by simp [selectAux] at h2⟩
  | cons a as ih =>
      intro B h k
      cases B with
      | nil => simp at h
      | cons b bs =>
          rw [List.map_cons, List.map_cons] at h
          injection h with hk ht
          have hr : runnableIn full a = runnableIn fullB b :=
            runnableIn_congr full fullB hf a b hk
          constructor
          · intro hnone
            rw [selectAux] at hnone ⊢
            by_cases hra : runnableIn full a = true
            · rw [if_pos hra] at hnone; exact absurd hnone (by simp)
            · rw [if_neg hra] at hnone
              rw [if_neg (by rw [← hr]; exact hra)]
              exact (ih bs ht (k + 1)).1 hnone
          · intro i s hsome
            rw [selectAux] at hsome ⊢
            by_cases hra : runnableIn full a = true
            · rw [if_pos hra] at hsome
              rw [if_pos (by rw [← hr]; exact hra)]
              have h2 : k = i ∧ a = s := by simpa using hsome
              obtain ⟨rfl, rfl⟩ := h2
              exact ⟨b, hk.symm, rfl⟩
            · rw [if_neg hra] at hsome
              rw [if_neg (by rw [← hr]; exact hra)]
              exact (ih bs ht (k + 1)).2 i s hsome

theorem map_proj_set {β : Type} (f : TaskStep → β) (steps : List TaskStep)
    (i : Nat) (sel s2 : TaskStep) (hi : steps.get? i = some sel)
    (hf : f s2 = f sel) : (steps.set i s2).map f = steps.map f := by
  rw [List.map_set, hf]
  apply list_set_id
  rw [List.get?_map, hi]; rfl

theorem selectStep_set (steps : List TaskStep) (i : Nat) (sel s2 : TaskStep)
    (hi : steps.get? i = some sel) (hk : stepKey s2 = stepKey sel)
    (hsel : selectStep steps = some (i, sel)) :
    getNextStep (steps.set i s2) = some s2 := by
  have hmap : (steps.set i s2).map stepKey = steps.map stepKey :=
    map_proj_set stepKey steps i sel s2 hi hk
  rw [selectStep] at hsel
  obtain ⟨t, htk, htsel⟩ :=
    (selectAux_congr steps (steps.set i s2) hmap.symm steps (steps.set i s2)
      hmap.symm 0).2 i sel hsel
  have hget := (selectAux_spec (steps.set i s2) (steps.set i s2) 0 i t htsel).2.1
  rw [Nat.sub_zero] at hget
  have hlen : i < steps.length := by
    rcases List.get?_eq_some.mp hi with ⟨hl, -⟩; exact hl
  have hgs : (steps.set i s2).get? i = some s2 :=
    list_set_get_self steps i s2 (by simpa using hlen)
  rw [hget] at hgs
  have ht2 : t = s2 := Option.some.inj hgs
  subst ht2
  rw [getNextStep_eq_selectStep, selectStep, htsel]
  rfl

theorem planBudget_set :
    ∀ (l : List TaskStep) (i : Nat) (a x : TaskStep), l.get? i = some a →
      planBudget (l.set i x) + stepBudget a = planBudget l + stepBudget x := by
  intro l
  induction l with
  | nil => intro i a x h; simp at h
  | cons y ys ih =>
      intro i a x h
      cases i with
      | zero =>
          rw [List.get?_cons_zero] at h
          have h2 := Option.some.inj h
          subst h2
          simp [planBudget, List.set]
          omega
      | succ n =>
          rw [List.get?_cons_succ] at h
          have h2 := ih n a x h
          simp only [List.set, planBudget, List.map_cons, List.sum_cons] at h2 ⊢
          omega

theorem stepBudget_le_planBudget (steps : List TaskStep) (s : TaskStep)
    (h : s ∈ steps) : stepBudget s ≤ planBudget steps := by
  apply List.single_le_sum (fun y _ => Nat.zero_le y)
  exact List.mem_map.mpr ⟨s, h, rfl⟩

theorem set_mem_eq (steps : List TaskStep) (i : Nat) (sel s2 : TaskStep)
    (hnd : (steps.map TaskStep.id).Nodup) (hi : steps.get? i = some sel)
    (hmem : sel ∈ steps.set i s2) : sel = s2 := by
  obtain ⟨j, hj⟩ := List.mem_iff_get?.mp hmem
  by_cases hij : i = j
  · subst hij
    have hlen : i < steps.length := by
      rcases List.get?_eq_some.mp hi with ⟨hl, -⟩; exact hl
    rw [list_set_get_self steps i s2 hlen] at hj
    exact (Option.some.inj hj).symm
  · rw [list_set_get_ne steps i j s2 hij] at hj
    exact absurd (nodup_map_get_inj TaskStep.id steps hnd i j sel sel hi hj rfl) hij

theorem not_pending_of_complete (steps : List TaskStep)
    (hc : isComplete steps = true) (t : TaskStep) (ht : t ∈ steps) :
    t.status ≠ "pending" := by
  rw [isComplete, List.all_eq_true] at hc
  have h2 := hc t ht
  intro hp
  rw [hp] at h2
  simp at h2

theorem isComplete_false_of_pending (steps : List TaskStep) (s : TaskStep)
    (hs : s ∈ steps) (hp : s.status = "pending") : isComplete steps = false := by
  rw [isComplete]
  apply List.all_eq_false.mpr
  exact ⟨s, hs, by simp [hp]⟩

theorem deadlockFail_get (steps : List TaskStep) (i : Nat) (s : TaskStep)
    (hi : steps.get? i = some s) :
    (s.status = "pending" →
      (deadlockFail steps).get? i =
        some { s with status := "failed", error := deadlockMsg }) ∧
    (s.status ≠ "pending" → (deadlockFail steps).get? i = some s) := by
  constructor
  · intro hp
    rw [deadlockFail, List.get?_map, hi]
    simp [hp]
  · intro hp
    rw [deadlockFail, List.get?_map, hi]
    simp [hp]

theorem deadlockFail_no_pending (steps : List TaskStep) (t : TaskStep)
    (ht : t ∈ deadlockFail steps) : t.status ≠ "pending" := by
  rw [deadlockFail, List.mem_map] at ht
  obtain ⟨s, hs, heq⟩ := ht
  subst heq
  intro hp
  by_cases hps : (s.status == "pending") = true
  · rw [if_pos hps] at hp
    simp at hp
  · rw [if_neg hps] at hp
    exact hps (by simp [hp])

theorem loopGo_succ_deadlock (oracle : Nat → String × Bool) (n : Nat)
    (st : LoopState) (hc : isComplete st.steps = false)
    (hsel : selectStep st.steps = none)
    (hany : st.steps.any (fun s => s.status == "pending") = true) :
    loopGo oracle (n + 1) st = { st with steps := deadlockFail st.steps } := by
  rw [loopGo, if_neg (by simp [hc]), hsel]
  show (if st.steps.any (fun s => s.status == "pending") = true
      then { st with steps := deadlockFail st.steps } else st) =
    { st with steps := deadlockFail st.steps }
  rw [if_pos hany]

theorem loopGo_succ_stall (oracle : Nat → String × Bool) (n : Nat)
    (st : LoopState) (hc : isComplete st.steps = false)
    (hsel : selectStep st.steps = none)
    (hany : ¬ st.steps.any (fun s => s.status == "pending") = true) :
    loopGo oracle (n + 1) st = st := by
  rw [loopGo, if_neg (by simp [hc]), hsel]
  show (if st.steps.any (fun s => s.status == "pending") = true
      then { st with steps := deadlockFail st.steps } else st) = st
  rw [if_neg hany]

theorem loopGo_succ_exec (oracle : Nat → String × Bool) (n : Nat)
    (st : LoopState) (i : Nat) (sel : TaskStep)
    (hc : isComplete st.steps = false)
    (hsel : selectStep st.steps = some (i, sel)) :
    loopGo oracle (n + 1) st =
      loopGo oracle n
        { steps :=
            if !(oracle st.iter).2 &&
                ((reflectStep sel (oracle st.iter).1 (oracle st.iter).2).status
                  == "failed") &&
                ((if (oracle st.iter).2 then 0 else st.cf + 1) < 3) then
              revisePlan
                (st.steps.set i (reflectStep sel (oracle st.iter).1 (oracle st.iter).2))
                (reflectStep sel (oracle st.iter).1 (oracle st.iter).2)
            else
              st.steps.set i (reflectStep sel (oracle st.iter).1 (oracle st.iter).2),
          cf := if (oracle st.iter).2 then 0 else st.cf + 1,
          iter := st.iter + 1,
          log := st.log ++ [sel.id] } := by
  rw [loopGo, if_neg (by simp [hc]), hsel]

theorem createPlanSteps_map_id (tasks : List AgentTask) :
    (createPlanSteps tasks).map TaskStep.id =
      (List.range tasks.length).map (fun n => n + 1) := by
  rw [createPlanSteps, List.map_map]
  have h1 : tasks.enum.map
      (TaskStep.id ∘ fun p : Nat × AgentTask =>
        ({ id := p.1 + 1, description := p.2.task.getD p.2.name,
           agent_type := p.2.agent.getD "coder",
           dependencies := p.2.need } : TaskStep)) =
      tasks.enum.map ((fun n => n + 1) ∘ Prod.fst) := rfl
  rw [h1, ← List.map_map, List.enum_map_fst]

theorem createPlanSteps_nodup (tasks : List AgentTask) :
    ((createPlanSteps tasks).map TaskStep.id).Nodup := by
  rw [createPlanSteps_map_id]
  exact List.Nodup.map (fun a b hab => by omega) (List.nodup_range _)

theorem createPlanSteps_fields (tasks : List AgentTask) (s : TaskStep)
    (h : s ∈ createPlanSteps tasks) :
    s.status = "pending" ∧ s.attempts = 0 ∧ s.max_attempts = 3 := by
  rw [createPlanSteps, List.mem_map] at h
  obtain ⟨p, -, rfl⟩ := h
  exact ⟨rfl, rfl, rfl⟩

theorem loopInv_init (tasks : List AgentTask) : LoopInv (createPlanSteps tasks) 0 := by
  refine ⟨createPlanSteps_nodup tasks, ?_, ?_, ?_⟩
  · intro s hs
    exact (createPlanSteps_fields tasks s hs).2.2
  · intro s hs _
    rw [(createPlanSteps_fields tasks s hs).2.1,
      (createPlanSteps_fields tasks s hs).2.2]
    omega
  · intro s hs _ hpos
    rw [(createPlanSteps_fields tasks s hs).2.1] at hpos
    exact absurd hpos (by omega)

theorem planBudget_createPlanSteps (tasks : List AgentTask) :
    planBudget (createPlanSteps tasks) = tasks.length * 3 := by
  rw [planBudget, createPlanSteps, List.map_map]
  have hm : tasks.enum.map
      (stepBudget ∘ fun p : Nat × AgentTask =>
        ({ id := p.1 + 1, description := p.2.task.getD p.2.name,
           agent_type := p.2.agent.getD "coder",
           dependencies := p.2.need } : TaskStep)) =
      List.replicate tasks.enum.length 3 := by
    rw [← List.map_const]
    apply List.map_congr_left
    intro p _
    simp [stepBudget]
  rw [hm, List.sum_replicate, smul_eq_mul, List.enum_length]

theorem loopGo_no_pending (oracle : Nat → String × Bool) :
    ∀ (fuel : Nat) (st : LoopState), LoopInv st.steps st.cf →
      planBudget st.steps ≤ fuel →
      ∀ t ∈ (loopGo oracle fuel st).steps, t.status ≠ "pending" := by
  intro fuel
  induction fuel with
  | zero =>
      intro st hinv hb t ht hp
      rw [loopGo] at ht
      obtain ⟨hnd, hmax, hlt, hhot⟩ := hinv
      have h1 : 1 ≤ stepBudget t := by
        have h3 := hmax t ht
        have h4 := hlt t ht hp
        rw [stepBudget, if_pos (by simp [hp])]
        omega
      have h2 := stepBudget_le_planBudget st.steps t ht
      omega
  | succ n ih =>
      intro st hinv hb
      by_cases hcb : isComplete st.steps = true
      · have he : loopGo oracle (n + 1) st = st := by rw [loopGo, if_pos hcb]
        rw [he]
        exact fun t ht => not_pending_of_complete st.steps hcb t ht
      · have hc : isComplete st.steps = false := by
          rwa [Bool.not_eq_true] at hcb
        obtain ⟨hnd, hmax, hlt, hhot⟩ := hinv
        cases hsel : selectStep st.steps with
        | none =>
            by_cases hany : st.steps.any (fun s => s.status == "pending") = true
            · rw [loopGo_succ_deadlock oracle n st hc hsel hany]
              exact fun t ht => deadlockFail_no_pending st.steps t ht
            · rw [loopGo_succ_stall oracle n st hc hsel hany]
              intro t ht hp
              exact hany (List.any_eq_true.mpr ⟨t, ht, by simp [hp]⟩)
        | some pair =>
            obtain ⟨i, sel⟩ := pair
            have hsel2 : selectAux st.steps st.steps 0 = some (i, sel) := by
              rw [selectStep] at hsel; exact hsel
            obtain ⟨-, hget0, hrun⟩ := selectAux_spec st.steps st.steps 0 i sel hsel2
            rw [Nat.sub_zero] at hget0
            have hmem : sel ∈ st.steps := List.get?_mem hget0
            have hpend : sel.status = "pending" := by
              rw [runnableIn, Bool.and_eq_true] at hrun
              simpa using hrun.1
            have hmax3 : sel.max_attempts = 3 := hmax sel hmem
            have hatt : sel.attempts < 3 := by
              have h5 := hlt sel hmem hpend; omega
            have hgn : getNextStep st.steps = some sel := by
              rw [getNextStep_eq_selectStep, hsel]; rfl
            rw [loopGo_succ_exec oracle n st i sel hc hsel]
            cases ho : oracle st.iter with
            | mk ans succ =>
                cases succ with
                | true =>
                    refine ih _ ?_ ?_
                    · show LoopInv (st.steps.set i (reflectStep sel ans true)) 0
                      have hstat : (reflectStep sel ans true).status = "completed" := rfl
                      refine ⟨?_, ?_, ?_, ?_⟩
                      · rw [map_proj_set TaskStep.id st.steps i sel
                          (reflectStep sel ans true) hget0 rfl]
                        exact hnd
                      · intro t ht
                        rcases List.mem_or_eq_of_mem_set ht with ht2 | rfl
                        · exact hmax t ht2
                        · rw [show (reflectStep sel ans true).max_attempts =
                            sel.max_attempts from rfl]
                          exact hmax3
                      · intro t ht hp
                        rcases List.mem_or_eq_of_mem_set ht with ht2 | rfl
                        · exact hlt t ht2 hp
                        · rw [hstat] at hp
                          exact absurd hp (by decide)
                      · intro t ht hp hpos
                        rcases List.mem_or_eq_of_mem_set ht with ht2 | rfl
                        · have hgt := (hhot t ht2 hp hpos).1
                          rw [hgn] at hgt
                          obtain rfl := Option.some.inj hgt
                          have heq2 := set_mem_eq st.steps i sel _ hnd hget0 ht
                          have hc2 := congrArg TaskStep.status heq2
                          rw [hpend, hstat] at hc2
                          exact absurd hc2 (by decide)
                        · rw [hstat] at hp
                          exact absurd hp (by decide)
                    · show planBudget (st.steps.set i (reflectStep sel ans true)) ≤ n
                      have hbs := planBudget_set st.steps i sel
                        (reflectStep sel ans true) hget0
                      have h0 : stepBudget (reflectStep sel ans true) = 0 := by
                        rw [stepBudget, if_neg (by
                          simp [show (reflectStep sel ans true).status =
                            "completed" from rfl])]
                      have h1 : stepBudget sel = 3 - sel.attempts := by
                        rw [stepBudget, if_pos (by simp [hpend]), hmax3]
                      omega
                | false =>
                    have hs2att : (reflectStep sel ans false).attempts =
                        sel.attempts + 1 := rfl
                    have hs2max : (reflectStep sel ans false).max_attempts =
                        sel.max_attempts := rfl
                    have hs2stat : (reflectStep sel ans false).status =
                        if 3 ≤ sel.attempts + 1 then "failed" else "pending" := by
                      rw [show (reflectStep sel ans false).status =
                        if sel.max_attempts ≤ sel.attempts + 1 then "failed"
                        else "pending" from rfl, hmax3]
                    show ∀ t ∈ (loopGo oracle n
                        { steps :=
                            if ((reflectStep sel ans false).status == "failed") &&
                                decide (st.cf + 1 < 3) then
                              revisePlan (st.steps.set i (reflectStep sel ans false))
                                (reflectStep sel ans false)
                            else st.steps.set i (reflectStep sel ans false),
                          cf := st.cf + 1, iter := st.iter + 1,
                          log := st.log ++ [sel.id] }).steps,
                      t.status ≠ "pending"
                    split
                    · next hcondT =>
                        exfalso
                        simp only [Bool.and_eq_true, beq_iff_eq,
                          decide_eq_true_eq] at hcondT
                        obtain ⟨hfail, hcf3⟩ := hcondT
                        by_cases hterm : 3 ≤ sel.attempts + 1
                        · have hle := (hhot sel hmem hpend (by omega)).2
                          omega
                        · rw [hs2stat, if_neg hterm] at hfail
                          exact absurd hfail (by decide)
                    · next hcondF =>
                        refine ih _ ?_ ?_
                        · show LoopInv (st.steps.set i (reflectStep sel ans false))
                            (st.cf + 1)
                          refine ⟨?_, ?_, ?_, ?_⟩
                          · rw [map_proj_set TaskStep.id st.steps i sel
                              (reflectStep sel ans false) hget0 rfl]
                            exact hnd
                          · intro t ht
                            rcases List.mem_or_eq_of_mem_set ht with ht2 | rfl
                            · exact hmax t ht2
                            · rw [hs2max]; exact hmax3
                          · intro t ht hp
                            rcases List.mem_or_eq_of_mem_set ht with ht2 | rfl
                            · exact hlt t ht2 hp
                            · by_cases hterm : 3 ≤ sel.attempts + 1
                              · rw [hs2stat, if_pos hterm] at hp
                                exact absurd hp (by decide)
                              · rw [hs2att, hs2max, hmax3]
                                omega
                          · intro t ht hp hpos
                            rcases List.mem_or_eq_of_mem_set ht with ht2 | rfl
                            · have hgt := (hhot t ht2 hp hpos).1
                              rw [hgn] at hgt
                              obtain rfl := Option.some.inj hgt
                              have heq2 := set_mem_eq st.steps i sel _ hnd hget0 ht
                              have hc2 := congrArg TaskStep.attempts heq2
                              rw [hs2att] at hc2
                              omega
                            · by_cases hterm : 3 ≤ sel.attempts + 1
                              · rw [hs2stat, if_pos hterm] at hp
                                exact absurd hp (by decide)
                              · have hkey : stepKey (reflectStep sel ans false) =
                                    stepKey sel := by
                                  rw [stepKey, stepKey,
                                    show (reflectStep sel ans false).id = sel.id from rfl,
                                    show (reflectStep sel ans false).dependencies =
                                      sel.dependencies from rfl,
                                    hs2stat, if_neg hterm, hpend]
                                have hle : sel.attempts ≤ st.cf := by
                                  by_cases hpos2 : 0 < sel.attempts
                                  · exact (hhot sel hmem hpend hpos2).2
                                  · omega
                                refine ⟨selectStep_set st.steps i sel _ hget0 hkey hsel, ?_⟩
                                rw [hs2att]
                                omega
                        · show planBudget (st.steps.set i (reflectStep sel ans false)) ≤ n
                          have hbs := planBudget_set st.steps i sel
                            (reflectStep sel ans false) hget0
                          have h1 : stepBudget sel = 3 - sel.attempts := by
                            rw [stepBudget, if_pos (by simp [hpend]), hmax3]
                          have h0 : stepBudget (reflectStep sel ans false) ≤
                              3 - (sel.attempts + 1) := by
                            by_cases hterm : 3 ≤ sel.attempts + 1
                            · have hsf : (reflectStep sel ans false).status =
                                  "failed" := by
                                rw [hs2stat]; exact if_pos hterm
                              rw [stepBudget, if_neg (by simp [hsf])]
                              omega
                            · have hsp : (reflectStep sel ans false).status =
                                  "pending" := by
                                rw [hs2stat]; exact if_neg hterm
                              rw [stepBudget, if_pos (by simp [hsp]),
                                hs2att, hs2max, hmax3]
                          omega

theorem runLoop_no_pending (oracle : Nat → String × Bool) (tasks : List AgentTask) :
    ∀ t ∈ (runLoop oracle tasks).steps, t.status ≠ "pending" := by
  rw [runLoop]
  apply loopGo_no_pending oracle ((createPlanSteps tasks).length * 4)
    { steps := createPlanSteps tasks, cf := 0, iter := 0, log := [] }
    (loopInv_init tasks)
  show planBudget (createPlanSteps tasks) ≤ (createPlanSteps tasks).length * 4
  rw [planBudget_createPlanSteps, createPlanSteps_length]
  omega

/-- C5: whenever the loop of `run_loop` finds no runnable step
(`get_next_step` returns `None`) while at least one step still has status
`pending`, it forces every pending step to `failed` with the
dependency-deadlock error (leaving non-pending steps unchanged) and exits
the loop immediately; for every capability oracle and task list, no step
of the plan `run_loop` returns is left `pending`; and in the two-step
plan where step 2 depends on step 1 and step 1 fails `max_attempts`
times, step 2 is never executed (the execution trace is step 1 three
times), both steps end `failed`, step 2 carries the deadlock error, and
the summary counts 0 of 2 steps completed. -/
theorem c5_deadlock_no_pending :
    (∀ (oracle : Nat → String × Bool) (fuel : Nat) (st : LoopState),
        selectStep st.steps = none →
        st.steps.any (fun s => s.status == "pending") = true →
        loopGo oracle (fuel + 1) st = { st with steps := deadlockFail st.steps } ∧
        (∀ i s, st.steps.get? i = some s →
          (s.status = "pending" →
            (deadlockFail st.steps).get? i =
              some { s with status := "failed", error := deadlockMsg }) ∧
          (s.status ≠ "pending" → (deadlockFail st.steps).get? i = some s)) ∧
        (∀ t ∈ deadlockFail st.steps, t.status ≠ "pending")) ∧
    (∀ (oracle : Nat → String × Bool) (tasks : List AgentTask),
        ∀ t ∈ (runLoop oracle tasks).steps, t.status ≠ "pending") ∧
    ((runLoop (fun _ => ("boom", false))
        [{ name := "t1", task := some "tugas satu", agent := some "coder" },
         { name := "t2", task := some "tugas dua", agent := some "file",
           need := ["1"] }]).log = [1, 1, 1] ∧
      (2 : Nat) ∉ (runLoop (fun _ => ("boom", false))
        [{ name := "t1", task := some "tugas satu", agent := some "coder" },
         { name := "t2", task := some "tugas dua", agent := some "file",
           need := ["1"] }]).log ∧
      (runLoop (fun _ => ("boom", false))
        [{ name := "t1", task := some "tugas satu", agent := some "coder" },
         { name := "t2", task := some "tugas dua", agent := some "file",
           need := ["1"] }]).steps.map (fun s => s.status) =
        ["failed", "failed"] ∧
      (runLoop (fun _ => ("boom", false))
        [{ name := "t1", task := some "tugas satu", agent := some "coder" },
         { name := "t2", task := some "tugas dua", agent := some "file",
           need := ["1"] }]).steps.map (fun s => s.error) =
        ["boom", deadlockMsg] ∧
      completedCount (runLoop (fun _ => ("boom", false))
        [{ name := "t1", task := some "tugas satu", agent := some "coder" },
         { name := "t2", task := some "tugas dua", agent := some "file",
           need := ["1"] }]).steps = 0 ∧
      (runLoop (fun _ => ("boom", false))
        [{ name := "t1", task := some "tugas satu", agent := some "coder" },
         { name := "t2", task := some "tugas dua", agent := some "file",
           need := ["1"] }]).steps.length = 2) := by
  refine ⟨?_, ?_, ?_⟩
  · intro oracle fuel st hsel hany
    have hc : isComplete st.steps = false := by
      rcases List.any_eq_true.mp hany with ⟨s, hs, hps⟩
      exact isComplete_false_of_pending st.steps s hs (by simpa using hps)
    refine ⟨loopGo_succ_deadlock oracle fuel st hc hsel hany, ?_, ?_⟩
    · intro i s hi
      exact deadlockFail_get st.steps i s hi
    · intro t ht
      exact deadlockFail_no_pending st.steps t ht
  · intro oracle tasks
    exact runLoop_no_pending oracle tasks
  · refine ⟨by decide, by decide, by decide, by decide, by decide, by decide⟩

/-- The deadlock branch fires on a concrete stuck plan: step 1 terminally
failed, step 2 pending on it; one more loop iteration forces step 2 to
`failed` without executing it. -/
theorem c5_deadlock_no_pending_witness :
    loopGo (fun _ => ("", false)) 1 stuckState =
      { stuckState with steps := deadlockFail stuckState.steps } ∧
    (deadlockFail stuckState.steps).map (fun s => s.status) =
      ["failed", "failed"] := by
  constructor
  · exact (c5_deadlock_no_pending.1 (fun _ => ("", false)) 0 stuckState
      (by decide) (by decide)).1
  · decide

end Dzeck
